import Mathlib

/-!
Verification development for the kite RPC core: the dnode scrubber
(src/dnode/scrub.go), the client wire codec and request/response layer
(src/client.go), and inbound named-method handling with authentication
(the kite method-handling code in src/kontrol/kontrol/main.go).

The Go code is shallowly embedded: Go dynamic values that can flow into the
scrubber become the inductive type `Value`; the scrubber's mutable state
(`seq uint64` plus the `callbacks` map) becomes the structure `Scrubber`
threaded explicitly; a Go panic becomes `Except.error` with the panic
message; uint64 arithmetic is `Nat` with explicit `% 2^64`.
-/

namespace KiteSpec

/-- Modulus of Go's uint64 arithmetic (`atomic.AddUint64` wraps at 2^64). -/
abbrev W64 : Nat := 2 ^ 64

/-- Abstract identity of a Go callable of type `func(*dnode.Partial)`.
The registry stores closures; the model stores opaque tokens for them. -/
abbrev Cb := Nat

/-- One element of a dnode path (`dnode.Path` is `[]interface{}`): a string
map key / struct field name, or an int array index.  `collectCallbacks`
appends the loop variable `i` (an int) for slices and the `key` (a string)
for maps, so both element kinds occur. -/
inductive PathElem where
  | str (s : String)
  | idx (i : Nat)
deriving DecidableEq, Repr

/-- A dnode path: a coordinate into a nested argument tree. -/
abbrev Path := List PathElem

/-- Little-endian decimal digits of `n`, computed with a structural fuel
argument so that the definition reduces in the kernel.  The fuel `n + 1`
used by `decimalDigitsRev` is always sufficient. -/
def decimalDigitsRevAux : Nat → Nat → List Nat
  | 0, _ => []
  | fuel + 1, n => if n < 10 then [n] else n % 10 :: decimalDigitsRevAux fuel (n / 10)

/-- Little-endian decimal digits of `n`. -/
def decimalDigitsRev (n : Nat) : List Nat := decimalDigitsRevAux (n + 1) n

/-- Model of Go `strconv.FormatUint(n, 10)`: the decimal string for `n`. -/
def formatUint64 (n : Nat) : String :=
  String.mk ((decimalDigitsRev n).reverse.map Nat.digitChar)

/-- Model of Go `strconv.ParseUint(s, 10, 64)` with the error ignored, as in
`removeCallbacks` / `sendCallbackID` (`id, _ := strconv.ParseUint(...)`):
a syntax error yields the zero value 0; a value out of the 64-bit range
yields the max value (Go returns `MaxUint64` together with `ErrRange`). -/
def parseUint64 (s : String) : Nat :=
  if s.data.isEmpty || !(s.data.all Char.isDigit) then 0
  else
    let n := s.data.foldl (fun acc c => acc * 10 + (c.toNat - 48)) 0
    if n < W64 then n else W64 - 1

/-- The per-session scrubber (`dnode.Scrubber`): the atomic sequence counter
`seq` and the registry map `callbacks` from uint64 ID to local callable.
The Go struct definition is not under src/; its two fields are exactly the
ones `registerCallback` (src/dnode/scrub.go) manipulates, and the registry
map is modelled as an association list. -/
structure Scrubber where
  seq : Nat
  callbacks : List (Nat × Cb)
deriving DecidableEq, Repr

/-- Modelled from the spec: `dnode.NewScrubber` is not under src/.  The spec
says IDs start at 0 and the registry starts empty, which matches Go zero
values for the struct fields. -/
def NewScrubber : Scrubber := ⟨0, []⟩

/-- Go map assignment `m[k] = v` on an association-list model: replace the
entry if the key is present, otherwise append. -/
def mapPut (reg : List (Nat × Cb)) (id : Nat) (cb : Cb) : List (Nat × Cb) :=
  if reg.any (fun e => e.1 == id) then
    reg.map (fun e => if e.1 == id then (id, cb) else e)
  else reg ++ [(id, cb)]

/-- Modelled from the spec: `Scrubber.GetCallback` is not under src/; the
spec says it is a plain registry lookup (`GetCallback(id) → callable or
none`). -/
def GetCallback (s : Scrubber) (id : Nat) : Option Cb :=
  s.callbacks.lookup id

/-- Modelled from the spec: `Scrubber.RemoveCallback` is not under src/; the
spec says it drops the registration and is safe on absent IDs. -/
def RemoveCallback (s : Scrubber) (id : Nat) : Scrubber :=
  { s with callbacks := s.callbacks.filter (fun e => !(e.1 == id)) }

/-- The callback-path map returned by `Scrub` (`map[string]dnode.Path`,
keyed by the stringified uint64 ID), as an association list. -/
abbrev CallbackMap := List (String × Path)

/-- Go map assignment on the callback-path map. -/
def cmapPut (m : CallbackMap) (k : String) (p : Path) : CallbackMap :=
  if m.any (fun e => e.1 == k) then
    m.map (fun e => if e.1 == k then (k, p) else e)
  else m ++ [(k, p)]

/-- Reflection data of one struct field, as `collectFields` reads it:
`f.Name`, whether `f.PkgPath == ""` (exported), `f.Tag.Get("dnode")`,
`f.Tag.Get("json")`, and `f.Anonymous`.  NOTE: this code targets the Go
toolchains of its era (it imports `code.google.com/p/go.net/websocket`),
where reflect reported an embedded field of unexported struct type with an
empty `PkgPath`, i.e. as exported; the embedded `callOptions` field of
`callOptionsOut` is therefore modelled with `exported := true`. -/
structure FieldInfo where
  name : String
  exported : Bool
  dnodeTag : String
  jsonTag : String
  anonymous : Bool
deriving DecidableEq, Repr

/-- Reflection data of one method, as `collectMethods` reads it: the method
name, whether `PkgPath == ""` (exported), and — since `registerCallback`
type-asserts the method value to `func(*dnode.Partial)` — the callable when
the signature matches, `none` otherwise. -/
structure MethodDecl where
  mname : String
  exported : Bool
  pfunc : Option Cb
deriving DecidableEq, Repr

mutual
/-- A Go dynamic value (`interface{}`) as the type switch of
`collectCallbacks` (src/dnode/scrub.go:23-73) can observe it.  One
constructor per case of that switch plus the reflect kinds of its default
branch:
* `vnil` — the `nil` case;
* `arr` — `[]interface{}`;
* `vmap` — `map[string]interface{}`;
* `parrNil`/`parrSome` — `*[]interface{}` (nil / non-nil);
* `pmapNil`/`pmapSome` — `*map[string]interface{}` (nil / non-nil);
* `bfunc` — a value of `reflect.Func` kind (a bare, unwrapped function);
* `ptrNil`/`ptrSome` — any other pointer (`reflect.Ptr` kind);
* `envelope` — a struct for which `isFunction` is true (it has a `Caller`
  interface field implementing `caller`, like `dnode.Function` and
  `kite.Function`); the argument is the `Caller` field's value;
* `strct` — any other struct, with its fields and exported-method set;
* `scalar` — every remaining kind (numbers, strings, bools, chans, …),
  which the default branch of the inner switch ignores. -/
inductive Value where
  | vnil
  | scalar (tag : Nat)
  | arr (items : VList)
  | vmap (entries : EList)
  | parrNil
  | parrSome (items : VList)
  | pmapNil
  | pmapSome (entries : EList)
  | bfunc (f : Cb)
  | ptrNil
  | ptrSome (e : Value)
  | envelope (caller : Option Cb)
  | strct (fields : FList) (methods : List MethodDecl)
deriving DecidableEq, Repr
/-- A `[]interface{}` slice of values. -/
inductive VList where
  | nil
  | cons (head : Value) (tail : VList)
deriving DecidableEq, Repr
/-- A `map[string]interface{}`; Go iterates maps in unspecified order, the
model fixes the list order (the spec's observable contract — which
callbacks are collected, at which paths — does not depend on it). -/
inductive EList where
  | nil
  | cons (key : String) (head : Value) (tail : EList)
deriving DecidableEq, Repr
/-- The field list of a struct, in declaration order (`i < v.NumField()`). -/
inductive FList where
  | nil
  | cons (info : FieldInfo) (head : Value) (tail : FList)
deriving DecidableEq, Repr
end

/-- Model of `isFunction` (src/dnode/scrub.go:79-91): true exactly for
struct values with a `Caller` interface field implementing `caller` — the
values carried by the `envelope` constructor. -/
def isFunction : Value → Bool
  | .envelope _ => true
  | _ => false

/-- The `reflect.Value` argument of `registerCallback` can hold: a Function
envelope (from the two `isFunction` branches of `collectCallbacks`), a
method value asserting to `func(*dnode.Partial)` (from `collectMethods`),
or anything else (a method value of another signature). -/
inductive RegVal where
  | envelope (caller : Option Cb)
  | pfunc (f : Cb)
  | other
deriving DecidableEq, Repr

/-- Go `strings.ToLower(name[0:1]) + name[1:]` from `collectMethods`:
lowercase the first character, retain the rest. -/
def lowerFirst (s : String) : String :=
  match s.data with
  | [] => s
  | c :: cs => String.mk (c.toLower :: cs)

/-- Model of `registerCallback` (src/dnode/scrub.go:139-178).  In order:
panic when the path is empty ("root element must be a struct or slice");
return silently when the envelope's `Caller` is nil or the value is neither
an envelope nor a `func(*dnode.Partial)`; otherwise
`next := atomic.AddUint64(&s.seq, 1) - 1` (uint64, so both the stored
counter and `next` wrap at 2^64; for a stored `seq < 2^64` the allocated ID
is exactly the old `seq`), store `ID ↦ cb` in the registry and
`FormatUint(ID) ↦ path copy` in the output map.  (Paths are immutable here,
so the explicit `pathCopy` is the path itself.)  `Except.error` is a Go
panic. -/
def registerCallback (s : Scrubber) (val : RegVal) (path : Path) (m : CallbackMap) :
    Except String (Scrubber × CallbackMap) :=
  if path = [] then .error "root element must be a struct or slice"
  else
    let cb? : Option Cb :=
      match val with
      | .envelope none => none
      | .envelope (some c) => some c
      | .pfunc f => some f
      | .other => none
    match cb? with
    | none => .ok (s, m)
    | some cb =>
      let next := s.seq % W64
      let seqStr := formatUint64 next
      .ok (⟨(s.seq + 1) % W64, mapPut s.callbacks next cb⟩, cmapPut m seqStr path)

/-- Model of `collectMethods` (src/dnode/scrub.go:128-136): register every
exported method at `path + lowerFirst(name)`.  (Go's `v.NumMethod()` on the
struct case lists value-receiver methods and, on the pointer case, value-
and pointer-receiver methods; the `methods` list of `strct` holds whichever
set reflect would report for the value passed in.) -/
def collectMethods (s : Scrubber) (methods : List MethodDecl) (path : Path)
    (m : CallbackMap) : Except String (Scrubber × CallbackMap) :=
  match methods with
  | [] => .ok (s, m)
  | md :: rest =>
    if md.exported then do
      let rv : RegVal := match md.pfunc with
        | some f => .pfunc f
        | none => .other
      let (s1, m1) ← registerCallback s rv (path ++ [.str (lowerFirst md.mname)]) m
      collectMethods s1 rest path m1
    else collectMethods s rest path m

mutual
/-- Model of `collectCallbacks` (src/dnode/scrub.go:19-75), one branch per
case of its type switch.  The two pointer-to-collection cases dereference
and re-dispatch through `collectCallbacks(*obj, path, m)`, which lands in
the slice/map branch; the model calls that branch's walker directly.  In
the `reflect.Ptr` default case, Go runs `collectFields` on the pointee,
which panics (`reflect.Value.NumField` on a non-struct) unless the pointee
is a struct; the model's catch-all `.error` mirrors that panic.
`Except.error` is a Go panic. -/
def collectCallbacks (s : Scrubber) (rawObj : Value) (path : Path) (m : CallbackMap) :
    Except String (Scrubber × CallbackMap) :=
  match rawObj with
  | .vnil => .ok (s, m)
  | .scalar _ => .ok (s, m)
  | .arr items => collectVList s items 0 path m
  | .vmap entries => collectEList s entries path m
  | .parrNil => .ok (s, m)
  | .parrSome items => collectVList s items 0 path m
  | .pmapNil => .ok (s, m)
  | .pmapSome entries => collectEList s entries path m
  | .bfunc _ => .error "cannot marshal func, use Callback() to wrap it"
  | .ptrNil => .ok (s, m)
  | .ptrSome e =>
    match e with
    | .envelope c => registerCallback s (.envelope c) path m
    | .strct fields methods => do
      let (s1, m1) ← collectFields s fields path m
      collectMethods s1 methods path m1
    | _ => .error "reflect: call of reflect.Value.NumField on non-struct Value"
  | .envelope c => registerCallback s (.envelope c) path m
  | .strct fields methods => do
    let (s1, m1) ← collectFields s fields path m
    collectMethods s1 methods path m1
/-- The `[]interface{}` loop of `collectCallbacks`: each element is visited
with its int index appended to the path (`append(path, i)` — the path
element is an int, not a string). -/
def collectVList (s : Scrubber) (items : VList) (i : Nat) (path : Path) (m : CallbackMap) :
    Except String (Scrubber × CallbackMap) :=
  match items with
  | .nil => .ok (s, m)
  | .cons x xs => do
    let (s1, m1) ← collectCallbacks s x (path ++ [.idx i]) m
    collectVList s1 xs (i + 1) path m1
/-- The `map[string]interface{}` loop of `collectCallbacks`: each value is
visited with its string key appended to the path. -/
def collectEList (s : Scrubber) (entries : EList) (path : Path) (m : CallbackMap) :
    Except String (Scrubber × CallbackMap) :=
  match entries with
  | .nil => .ok (s, m)
  | .cons k v rest => do
    let (s1, m1) ← collectCallbacks s v (path ++ [.str k]) m
    collectEList s1 rest path m1
/-- Model of `collectFields` (src/dnode/scrub.go:94-126): skip unexported
fields and fields tagged `dnode:"-"` or `json:"-"`; the path name is the
json tag when non-empty, else the field name; an anonymous field is visited
at the current path, a named one with its name appended. -/
def collectFields (s : Scrubber) (fields : FList) (path : Path) (m : CallbackMap) :
    Except String (Scrubber × CallbackMap) :=
  match fields with
  | .nil => .ok (s, m)
  | .cons f v rest =>
    if !f.exported || f.dnodeTag == "-" || f.jsonTag == "-" then
      collectFields s rest path m
    else
      let name := if f.jsonTag != "" then f.jsonTag else f.name
      if f.anonymous then do
        let (s1, m1) ← collectCallbacks s v path m
        collectFields s1 rest path m1
      else do
        let (s1, m1) ← collectCallbacks s v (path ++ [.str name]) m
        collectFields s1 rest path m1
end

/-- Model of `Scrubber.Scrub` (src/dnode/scrub.go:10-14): walk the value
from an empty path into a fresh callback map; mutating the scrubber in
place becomes returning the new scrubber. -/
def Scrub (s : Scrubber) (obj : Value) : Except String (Scrubber × CallbackMap) :=
  collectCallbacks s obj [] []

mutual
/-- A pure-JSON value in the sense of the spec: only nil, numbers, strings,
booleans, arrays and maps — no callables, no pointers, no structs. -/
def pureJSON : Value → Bool
  | .vnil => true
  | .scalar _ => true
  | .arr items => pureJSONVList items
  | .vmap entries => pureJSONEList entries
  | _ => false
def pureJSONVList : VList → Bool
  | .nil => true
  | .cons x xs => pureJSON x && pureJSONVList xs
def pureJSONEList : EList → Bool
  | .nil => true
  | .cons _ v rest => pureJSON v && pureJSONEList rest
end

/-- Registrations performed by `collectMethods` on a method set. -/
def regCountMethods : List MethodDecl → Nat
  | [] => 0
  | md :: rest =>
    (if md.exported then match md.pfunc with | some _ => 1 | none => 0 else 0)
      + regCountMethods rest

mutual
/-- Specification-side measure: the number of callback registrations a
successful `collectCallbacks` walk of the value performs (registrations
with a nil `Caller` or a non-matching method signature count 0). -/
def regCount : Value → Nat
  | .vnil => 0
  | .scalar _ => 0
  | .arr items => regCountVList items
  | .vmap entries => regCountEList entries
  | .parrNil => 0
  | .parrSome items => regCountVList items
  | .pmapNil => 0
  | .pmapSome entries => regCountEList entries
  | .bfunc _ => 0
  | .ptrNil => 0
  | .ptrSome e =>
    match e with
    | .envelope (some _) => 1
    | .strct fields methods => regCountFList fields + regCountMethods methods
    | _ => 0
  | .envelope (some _) => 1
  | .envelope none => 0
  | .strct fields methods => regCountFList fields + regCountMethods methods
def regCountVList : VList → Nat
  | .nil => 0
  | .cons x xs => regCount x + regCountVList xs
def regCountEList : EList → Nat
  | .nil => 0
  | .cons _ v rest => regCount v + regCountEList rest
def regCountFList : FList → Nat
  | .nil => 0
  | .cons f v rest =>
    if !f.exported || f.dnodeTag == "-" || f.jsonTag == "-" then regCountFList rest
    else regCount v + regCountFList rest
end

mutual
/-- Specification-side predicate: the walk of `collectCallbacks` reaches a
bare, unwrapped callable (`reflect.Func` kind) somewhere in the value —
following exactly the positions the walk visits (skipped fields, nil
pointers, envelope interiors and non-struct pointees are not visited). -/
def containsRawFunc : Value → Bool
  | .vnil => false
  | .scalar _ => false
  | .arr items => containsRawFuncVList items
  | .vmap entries => containsRawFuncEList entries
  | .parrNil => false
  | .parrSome items => containsRawFuncVList items
  | .pmapNil => false
  | .pmapSome entries => containsRawFuncEList entries
  | .bfunc _ => true
  | .ptrNil => false
  | .ptrSome e =>
    match e with
    | .strct fields _ => containsRawFuncFList fields
    | _ => false
  | .envelope _ => false
  | .strct fields _ => containsRawFuncFList fields
def containsRawFuncVList : VList → Bool
  | .nil => false
  | .cons x xs => containsRawFunc x || containsRawFuncVList xs
def containsRawFuncEList : EList → Bool
  | .nil => false
  | .cons _ v rest => containsRawFunc v || containsRawFuncEList rest
def containsRawFuncFList : FList → Bool
  | .nil => false
  | .cons f v rest =>
    if !f.exported || f.dnodeTag == "-" || f.jsonTag == "-" then containsRawFuncFList rest
    else containsRawFunc v || containsRawFuncFList rest
end

/-- The decoded `method` slot of a dnode message.  `json.Unmarshal` into
`interface{}` yields `float64` for a JSON number token, `string` for a JSON
string token, and other Go kinds otherwise; `processMessage` switches on
`case float64` / `case string` / `default`.  The numeric token is modelled
as `Nat` (the code converts with `uint64(method)`; callback IDs are
integral). -/
inductive MethodVal where
  | num (n : Nat)
  | str (s : String)
  | other
deriving DecidableEq, Repr

/-- A dnode message (`dnode.Message`, assembled in `marshalAndSend`,
src/client.go:529-533): method, raw arguments (modelled in decoded form),
and the callback-path map.  The unused `links` field is omitted. -/
structure Message where
  method : MethodVal
  arguments : VList
  callbacks : CallbackMap
deriving DecidableEq, Repr

/-- Failure environment for one `marshalAndSend` call: whether
`json.Marshal(arguments)` succeeds, whether `json.Marshal(msg)` succeeds,
whether `c.conn != nil`, and whether the websocket write succeeds. -/
structure SendEnv where
  argsMarshalOk : Bool
  msgMarshalOk : Bool
  connected : Bool
  wireOk : Bool
deriving DecidableEq, Repr

/-- Model of `sendData` (src/client.go:311-321): with a nil connection it
returns `errors.New("not connected")` (instead of dereferencing the nil
handle — so no panic); otherwise the websocket send may fail. -/
def sendData (env : SendEnv) : Option String :=
  if !env.connected then some "not connected"
  else if !env.wireOk then some "websocket: send failed"
  else none

/-- Model of `removeCallbacks` (src/client.go:545-553): parse each key of
the callback map back to a uint64 (ignoring the parse error) and call
`RemoveCallback` on it. -/
def removeCallbacks (s : Scrubber) (callbacks : CallbackMap) : Scrubber :=
  match callbacks with
  | [] => s
  | (sid, _) :: rest => removeCallbacks (RemoveCallback s (parseUint64 sid)) rest

/-- The observable outcome of one `marshalAndSend` call: the two named
return values (`callbacks`, `err`), the scrubber state after the call (the
deferred cleanup included), and the message handed to `sendData`, if any. -/
structure MASResult where
  callbacks : CallbackMap
  err : Option String
  scrubber : Scrubber
  sent : Option Message
deriving DecidableEq, Repr

/-- Model of `marshalAndSend` (src/client.go:510-542).  Go semantics that
matter here: `callbacks` is a named return value; the deferred closure runs
after a `return` statement has assigned it and calls
`removeCallbacks(callbacks)` when `err != nil`.  The two marshal-failure
branches execute `return nil, err`, so the deferred cleanup sees a nil map
and removes nothing; only the `sendData`-failure path (the final bare
`return`) still holds the real map and drains it.  A `Scrub` panic
(`Except.error`) propagates before the deferred cleanup is installed. -/
def marshalAndSend (s : Scrubber) (env : SendEnv) (method : MethodVal) (arguments : VList) :
    Except String MASResult :=
  match Scrub s (.arr arguments) with
  | .error p => .error p
  | .ok (s1, cbs) =>
    if !env.argsMarshalOk then
      .ok { callbacks := [], err := some "json: unsupported value in arguments",
            scrubber := removeCallbacks s1 [], sent := none }
    else if !env.msgMarshalOk then
      .ok { callbacks := [], err := some "json: unsupported value in message",
            scrubber := removeCallbacks s1 [], sent := none }
    else
      let msg : Message := { method := method, arguments := arguments, callbacks := cbs }
      match sendData env with
      | some e =>
        .ok { callbacks := cbs, err := some e,
              scrubber := removeCallbacks s1 cbs, sent := none }
      | none =>
        .ok { callbacks := cbs, err := none, scrubber := s1, sent := some msg }

/-- The sender closure built in `processMessage` (src/client.go:271-274):
`func(id uint64, args []interface{}) error`, which calls
`c.marshalAndSend(id, args)` — the message's method is the numeric callback
ID.  Invoking a reconstructed callback proxy with values V runs
`sender id V`. -/
def sender (s : Scrubber) (env : SendEnv) (id : Nat) (args : VList) :
    Except String MASResult :=
  marshalAndSend s env (.num id) args

/-- Model of `sendCallbackID` (src/client.go:556-578): scan the callback
map for an entry whose path has length 2, both elements strings, equal to
"0" and "responseCallback"; send its parsed ID into the channel (`some`)
and return, or close the channel (`none`) when the loop finds none. -/
def sendCallbackID (callbacks : CallbackMap) : Option Nat :=
  match callbacks with
  | [] => none
  | (id, path) :: rest =>
    match path with
    | [.str p0, .str p1] =>
      if p0 = "0" && p1 = "responseCallback" then some (parseUint64 id)
      else sendCallbackID rest
    | _ => sendCallbackID rest

/-- The timeout branch of the waiter goroutine in `sendMethod`
(src/client.go:494-502): after delivering the timeout error, receive from
the remove-callback channel; when the receive yields a value (`some id` —
the channel got a value from `sendCallbackID`), evict that callback from
the scrubber; when the channel was closed (`none`), do nothing. -/
def timeoutEvict (s : Scrubber) (removeCallbackRecv : Option Nat) : Scrubber :=
  match removeCallbackRecv with
  | some id => RemoveCallback s id
  | none => s

/-- The value of the `*Authentication` field sent with each request
(`Authentication` has two plain string fields, `Type` and `Key`): a nil
pointer, or a pointer to that struct (which contributes no callbacks). -/
def authenticationValue : Option (String × String) → Value
  | none => .ptrNil
  | some _ =>
    .ptrSome (.strct
      (.cons ⟨"Type", true, "", "type", false⟩ (.scalar 0)
      (.cons ⟨"Key", true, "", "key", false⟩ (.scalar 1)
      .nil)) [])

/-- Model of `wrapMethodArgs` (src/client.go:396-406): the single outgoing
argument is a `callOptionsOut` value — the embedded `callOptions` (fields
`Kite` tagged `json:"kite" dnode:"-"`, `Authentication` tagged
`json:"authentication"`, `WithArgs *dnode.Partial` tagged
`json:"withArgs" dnode:"-"`, `ResponseCallback Function` tagged
`json:"responseCallback"`) plus the overriding `WithArgs []interface{}`
tagged `json:"withArgs"` carrying the user arguments.  See `FieldInfo` for
why the embedded field is modelled as exported. -/
def wrapMethodArgs (kiteV : Value) (auth : Option (String × String)) (args : VList)
    (responseCallback : Option Cb) : VList :=
  .cons
    (.strct
      (.cons ⟨"callOptions", true, "", "", true⟩
        (.strct
          (.cons ⟨"Kite", true, "-", "kite", false⟩ kiteV
          (.cons ⟨"Authentication", true, "", "authentication", false⟩ (authenticationValue auth)
          (.cons ⟨"WithArgs", true, "-", "withArgs", false⟩ .ptrNil
          (.cons ⟨"ResponseCallback", true, "", "responseCallback", false⟩ (.envelope responseCallback)
          .nil)))) [])
      (.cons ⟨"WithArgs", true, "", "withArgs", false⟩ (.arr args)
      .nil)) [])
    .nil

/-- The kite error object (`kite.Error`): a tagged `{type, message}` pair;
the fields are Go's `Type` and `Message` (renamed, `Type` being a Lean
keyword). -/
structure KError where
  errType : String
  errMessage : String
deriving DecidableEq, Repr

/-- The value delivered on a `Tell`/`Go` response channel (`response`,
src/client.go:416-419): a result (abstract token) or an error. -/
structure ClientResponse where
  result : Option Nat
  err : Option KError
deriving DecidableEq, Repr

/-- The observable outcome of one `sendMethod` call (src/client.go:458-506):
the scrubber after the send, the response posted synchronously to the
response channel on a marshal/send failure (if any), the callback map
`marshalAndSend` returned, the value `sendCallbackID` put into the
remove-callback channel (`none` = it closed the channel; also `none` on the
early-return failure path, where `sendCallbackID` never runs), and the
message sent. -/
structure SendMethodResult where
  scrubber : Scrubber
  responseSent : Option ClientResponse
  callbacks : CallbackMap
  removeCallbackMsg : Option Nat
  sent : Option Message
deriving DecidableEq, Repr

/-- Model of `sendMethod` (src/client.go:458-506): wrap the arguments with
the call options and the response callback, `marshalAndSend`; on error post
`&response{nil, &Error{"sendError", err.Error()}}` to the response channel
and return; on success run `sendCallbackID` on the returned map.  (The
waiter goroutine's timeout branch is modelled separately by
`timeoutEvict`.)  `Except.error` is a propagated Go panic. -/
def sendMethod (s : Scrubber) (env : SendEnv) (kiteV : Value)
    (auth : Option (String × String)) (cbTok : Cb) (method : String) (args : VList) :
    Except String SendMethodResult :=
  let wrapped := wrapMethodArgs kiteV auth args (some cbTok)
  match marshalAndSend s env (.str method) wrapped with
  | .error p => .error p
  | .ok r =>
    match r.err with
    | some e =>
      .ok { scrubber := r.scrubber,
            responseSent := some ⟨none, some ⟨"sendError", e⟩⟩,
            callbacks := r.callbacks, removeCallbackMsg := none, sent := none }
    | none =>
      .ok { scrubber := r.scrubber, responseSent := none,
            callbacks := r.callbacks,
            removeCallbackMsg := sendCallbackID r.callbacks, sent := r.sent }

/-- Abstract token for a registered handler (`HandlerFunc`) in the
process-local handler table `k.handlers`. -/
abbrev HandlerTok := Nat

/-- What one `processMessage` call does after decoding, as observed at its
dispatch switch (src/client.go:281-299). -/
inductive ProcessResult where
  | parseCallbacksFailed
  | callbackInvoked (id : Nat) (cb : Cb)
  | callbackNotFound (id : Nat)
  | methodInvoked (name : String) (h : HandlerTok)
  | methodNotFound (name : String)
  | malformedMethod
deriving DecidableEq, Repr

/-- Model of `processMessage` (src/client.go:252-301) from the point where
the message is decoded: run the callback reconstruction (its success is the
`parseOk` flag), then dispatch on the dynamic type of `msg.Method`:
`case float64` — look the ID up in the scrubber, `CallbackNotFoundError` if
absent, else run the callback; `case string` — look the name up in the
handler table, `MethodNotFoundError` if absent, else run the handler;
`default` — the malformed-method error.  A string such as "1" takes the
`case string` branch: dispatch is on the token kind, never an integer
parse. -/
def processMessage (s : Scrubber) (handlers : List (String × HandlerTok))
    (parseOk : Bool) (msg : Message) : ProcessResult :=
  if !parseOk then .parseCallbacksFailed
  else
    match msg.method with
    | .num n =>
      match GetCallback s n with
      | none => .callbackNotFound n
      | some cb => .callbackInvoked n cb
    | .str name =>
      match handlers.lookup name with
      | none => .methodNotFound name
      | some h => .methodInvoked name h
    | .other => .malformedMethod

/-- The parts of a `*Client` that `Request.authenticate` and `runMethod`
read or write: `RemoteAddr()` (empty for an outgoing connection) and
`Client.Kite.Username`, the remote's self-reported username. -/
structure RMClient where
  remoteAddr : String
  kiteUsername : String
deriving DecidableEq, Repr

/-- The `Authentication` credentials sent with a request; the fields are
Go's `Type` and `Key`. -/
structure AuthInfo where
  authType : String
  key : String
deriving DecidableEq, Repr

/-- An authenticator from `LocalKite.Authenticators` — Go type
`func(*Request) error`.  On success the Go function assigns
`r.Username` (e.g. the token's "sub" claim); the model returns that
authenticated username. -/
abbrev Authenticator := AuthInfo → Except String String

/-- The inbound request (`kite.Request`) as `runMethod` builds it via
`newRequest`: method name, the session, the caller-supplied authentication,
and the username slot the authenticator populates. -/
structure Request where
  method : String
  client : RMClient
  username : String
  authentication : Option AuthInfo
deriving DecidableEq, Repr

/-- Model of `Request.authenticate` (the kite method-handling code in
src/kontrol/kontrol/main.go, lines 232-269 of that file): trust the kite
when we initiated the connection (`RemoteAddr() == ""`); fail with an
`authenticationError` when no credentials were provided, when the
authentication type has no registered authenticator, or when the
authenticator rejects; on success the authenticator has set
`r.Username`, and `r.Client.Kite.Username = r.Username` overwrites the
self-reported username. -/
def authenticate (authenticators : List (String × Authenticator)) (r : Request) :
    Except KError Request :=
  if r.client.remoteAddr = "" then .ok r
  else
    match r.authentication with
    | none => .error ⟨"authenticationError", "No authentication information is provided"⟩
    | some a =>
      match authenticators.lookup a.authType with
      | none => .error ⟨"authenticationError", "Unknown authentication type: " ++ a.authType⟩
      | some f =>
        match f a with
        | .error e => .error ⟨"authenticationError", e⟩
        | .ok uname =>
          .ok { r with username := uname,
                       client := { r.client with kiteUsername := uname } }

/-- The single argument passed to the response callback (`kite.Response`):
`{result, error}`, the result abstracted to a token. -/
structure KResponse where
  result : Option Nat
  error : Option KError
deriving DecidableEq, Repr

/-- A registered handler (`HandlerFunc`, `func(*Request) (interface{}, error)`).
A non-nil error is panicked by `runMethod` and recovered by `recoverError`
into a `*kite.Error` (dnode argument errors become `argumentError`, other
panics `genericError`); the model's handler returns the recovered pair
directly. -/
abbrev MHandler := Request → Option Nat × Option KError

/-- What one `runMethod` call did, as its deferred blocks observe it:
whether the handler ran, the `request.Client.Kite.Username` the handler saw
when it ran, and the `Response{result, error}` passed to the response
callback (present only when the request carried one, i.e.
`callback.Caller != nil`). -/
structure RunMethodOutcome where
  handlerRan : Bool
  handlerSawKiteUsername : Option String
  reply : Option KResponse
deriving DecidableEq, Repr

/-- Model of `runMethod` (the kite method-handling code in
src/kontrol/kontrol/main.go, lines 62-115 of that file): build the request
(given here as `r0` with `hasResponseCallback`); unless
`Config.DisableAuthentication`, run `request.authenticate()` — a non-nil
`kiteErr` returns before the handler is called; otherwise call the handler;
the deferred block replies with `Response{result, kiteErr}` through the
response callback when one was provided. -/
def runMethod (disableAuthentication : Bool)
    (authenticators : List (String × Authenticator)) (r0 : Request)
    (hasResponseCallback : Bool) (handler : MHandler) : RunMethodOutcome :=
  if disableAuthentication then
    let (res, err) := handler r0
    { handlerRan := true, handlerSawKiteUsername := some r0.client.kiteUsername,
      reply := if hasResponseCallback then some ⟨res, err⟩ else none }
  else
    match authenticate authenticators r0 with
    | .error e =>
      { handlerRan := false, handlerSawKiteUsername := none,
        reply := if hasResponseCallback then some ⟨none, some e⟩ else none }
    | .ok r1 =>
      let (res, err) := handler r1
      { handlerRan := true, handlerSawKiteUsername := some r1.client.kiteUsername,
        reply := if hasResponseCallback then some ⟨res, err⟩ else none }

/-- The deserialized argument tree of an inbound message, after callback
reconstruction: plain JSON nodes plus `callbackProxy id`, the invocable
proxy that a replaced slot becomes — calling it with values V runs
`sender id V`. -/
inductive PTree where
  | null
  | pscalar (tag : Nat)
  | parr (items : List PTree)
  | pobj (entries : List (String × PTree))
  | callbackProxy (id : Nat)

/-- Index into a parsed JSON array. -/
def ptlGet : List PTree → Nat → Option PTree
  | [], _ => none
  | h :: _, 0 => some h
  | _ :: t, n + 1 => ptlGet t n

/-- Replace the node at an index of a parsed JSON array (identity when the
index is out of range). -/
def ptlSet : List PTree → Nat → PTree → List PTree
  | [], _, _ => []
  | _ :: t, 0, nv => nv :: t
  | h :: t, n + 1, nv => h :: ptlSet t n nv

/-- Look a key up in a parsed JSON object. -/
def pteGet : List (String × PTree) → String → Option PTree
  | [], _ => none
  | (k, h) :: t, key => if k = key then some h else pteGet t key

/-- Replace the node at a key of a parsed JSON object (first occurrence). -/
def pteSet : List (String × PTree) → String → PTree → List (String × PTree)
  | [], _, _ => []
  | (k, h) :: t, key, nv =>
    if k = key then (k, nv) :: t else (k, h) :: pteSet t key nv

/-- Read the node a path leads to: integers index sequences, strings index
mappings (spec §4.2). -/
def getPath : Path → PTree → Option PTree
  | [], t => some t
  | .idx i :: rest, .parr items =>
    match ptlGet items i with
    | some c => getPath rest c
    | none => none
  | .str k :: rest, .pobj entries =>
    match pteGet entries k with
    | some c => getPath rest c
    | none => none
  | _ :: _, _ => none

/-- Replace the node a path leads to: traversal into the final slot
replaces that slot (spec §4.2). -/
def setPath : Path → PTree → PTree → Option PTree
  | [], _, nv => some nv
  | .idx i :: rest, .parr items, nv =>
    match ptlGet items i with
    | some c =>
      match setPath rest c nv with
      | some c' => some (.parr (ptlSet items i c'))
      | none => none
    | none => none
  | .str k :: rest, .pobj entries, nv =>
    match pteGet entries k with
    | some c =>
      match setPath rest c nv with
      | some c' => some (.pobj (pteSet entries k c'))
      | none => none
    | none => none
  | _ :: _, _, _ => none

/-- Modelled from the spec: `dnode.ParseCallbacks(msg, sender)` is code of
this repository that is not under src/ (src/client.go:277 calls it).  Spec
§4.2: "for every `(id, path)` in the message's `callbacks` field, descend
into the deserialized argument tree following `path` and replace the slot
at that path with an invocable proxy"; the proxy for `id`, when called with
values V, invokes `sender(id, V)`.  A failing descent is an error
(`none`). -/
def ParseCallbacks : CallbackMap → PTree → Option PTree
  | [], t => some t
  | (sid, p) :: rest, t =>
    match setPath p t (.callbackProxy (parseUint64 sid)) with
    | some t1 => ParseCallbacks rest t1
    | none => none

/-- Two paths diverge when they differ at some position inside their common
length — equivalently, neither is a prefix of the other, so `setPath` along
one cannot touch the slot the other addresses. -/
def pathsDiverge : Path → Path → Bool
  | [], _ => false
  | _ :: _, [] => false
  | a :: p, b :: q => a != b || pathsDiverge p q

/-- Value of a little-endian decimal digit list. -/
def decimalValue : List Nat → Nat
  | [] => 0
  | d :: ds => d + 10 * decimalValue ds

/-- Registrations `registerCallback` performs for a given value: one when
it stores a callback, zero when it returns silently. -/
def regValCount : RegVal → Nat
  | .envelope (some _) => 1
  | .envelope none => 0
  | .pfunc _ => 1
  | .other => 0

/-- Every key of the callback map is the decimal form of an ID below `a`. -/
def KeyInv (m : CallbackMap) (a : Nat) : Prop :=
  ∀ e ∈ m, ∃ j, j < a ∧ e.1 = formatUint64 j

/-- Every registered ID is below `a` (`a` is the next counter value). -/
def RegInv (l : List (Nat × Cb)) (a : Nat) : Prop :=
  ∀ e ∈ l, e.1 < a

/-- The effect one scrubbing step has on the counter, the registry and the
callback map when it performs `k` registrations: the counter advances by
`k` mod 2^64 and — as long as the counter does not wrap and the inputs
satisfy the key/registry invariants — the new map entries are exactly the
decimal keys `s.seq, …, s.seq + k - 1` in order, the registry grows by
those IDs in order, and the invariants are preserved. -/
def CollectSpec (s : Scrubber) (k : Nat) (m : CallbackMap) (s' : Scrubber)
    (m' : CallbackMap) : Prop :=
  (s.seq < W64 → s'.seq = (s.seq + k) % W64) ∧
  (s.seq + k < W64 → KeyInv m s.seq → RegInv s.callbacks s.seq →
    ∃ new regs,
      m' = m ++ new ∧
      new.map Prod.fst = (List.range' s.seq k).map formatUint64 ∧
      s'.callbacks = s.callbacks ++ regs ∧
      regs.map Prod.fst = List.range' s.seq k ∧
      KeyInv m' s'.seq ∧ RegInv s'.callbacks s'.seq)

/-- A sequence of `Scrub` calls on one session, returning the final
scrubber and each call's callback map. -/
def scrubMany (s : Scrubber) : List Value → Except String (Scrubber × List CallbackMap)
  | [] => .ok (s, [])
  | v :: vs =>
    match Scrub s v with
    | .error e => .error e
    | .ok (s1, cm) =>
      match scrubMany s1 vs with
      | .error e => .error e
      | .ok (s2, cms) => .ok (s2, cm :: cms)

/-- The keys allocated across a sequence of `Scrub` calls, in order. -/
def allocatedKeys (cms : List CallbackMap) : List String :=
  (cms.map (fun cm => cm.map Prod.fst)).flatten


theorem decimalDigitsRevAux_lt10 (fuel : Nat) :
    ∀ n d, d ∈ decimalDigitsRevAux fuel n → d < 10 := by
  induction fuel with
  | zero => intro n d hd; simp [decimalDigitsRevAux] at hd
  | succ fuel ih =>
    intro n d hd
    by_cases h : n < 10
    · simp [decimalDigitsRevAux, h] at hd; omega
    · simp [decimalDigitsRevAux, h] at hd
      rcases hd with h1 | h2
      · omega
      · exact ih _ _ h2

theorem decimalDigitsRevAux_value (fuel : Nat) :
    ∀ n, n < fuel → decimalValue (decimalDigitsRevAux fuel n) = n := by
  induction fuel with
  | zero => omega
  | succ fuel ih =>
    intro n hn
    by_cases h10 : n < 10
    · simp [decimalDigitsRevAux, h10, decimalValue]
    · have hdiv : n / 10 < fuel := by
        have h0 : 0 < n := by omega
        have := Nat.div_lt_self h0 (by omega : 1 < 10)
        omega
      simp [decimalDigitsRevAux, h10, decimalValue, ih _ hdiv]
      omega

theorem decimalDigitsRevAux_ne_nil (fuel n : Nat) (h : 0 < fuel) :
    decimalDigitsRevAux fuel n ≠ [] := by
  cases fuel with
  | zero => omega
  | succ fuel => by_cases h10 : n < 10 <;> simp [decimalDigitsRevAux, h10]

theorem foldl_decimal_reverse (ds : List Nat) (acc : Nat) :
    List.foldl (fun a d => a * 10 + d) acc ds.reverse
      = acc * 10 ^ ds.length + decimalValue ds := by
  induction ds generalizing acc with
  | nil => simp [decimalValue]
  | cons d tl ih =>
    rw [List.reverse_cons, List.foldl_append, ih]
    simp [decimalValue, pow_succ]
    ring

theorem digitChar_isDigit : ∀ d, d < 10 → (Nat.digitChar d).isDigit = true := by decide

theorem digitChar_toNat : ∀ d, d < 10 → (Nat.digitChar d).toNat - 48 = d := by decide

theorem foldl_digitChar (ds : List Nat) (h : ∀ d ∈ ds, d < 10) (acc : Nat) :
    List.foldl (fun a c => a * 10 + (c.toNat - 48)) acc (ds.map Nat.digitChar)
      = List.foldl (fun a d => a * 10 + d) acc ds := by
  induction ds generalizing acc with
  | nil => rfl
  | cons d tl ih =>
    simp only [List.map_cons, List.foldl_cons]
    rw [digitChar_toNat d (h d (by simp))]
    exact ih (fun x hx => h x (by simp [hx])) _

theorem parseUint64_formatUint64 (n : Nat) (h : n < W64) :
    parseUint64 (formatUint64 n) = n := by
  have hlt : ∀ d ∈ (decimalDigitsRev n).reverse, d < 10 := by
    intro d hd
    exact decimalDigitsRevAux_lt10 _ _ d (List.mem_reverse.mp hd)
  have hne : decimalDigitsRev n ≠ [] := decimalDigitsRevAux_ne_nil _ _ (Nat.succ_pos n)
  have hdata : (formatUint64 n).data = (decimalDigitsRev n).reverse.map Nat.digitChar := rfl
  have hempty : (formatUint64 n).data.isEmpty = false := by
    rw [hdata]
    rcases hx : (decimalDigitsRev n).reverse with _ | ⟨c, cs⟩
    · exact absurd (List.reverse_eq_nil_iff.mp hx) hne
    · rfl
  have hall : (formatUint64 n).data.all Char.isDigit = true := by
    rw [hdata, List.all_eq_true]
    intro c hc
    rcases List.mem_map.mp hc with ⟨d, hd, rfl⟩
    exact digitChar_isDigit d (hlt d hd)
  have hfold : (formatUint64 n).data.foldl (fun acc c => acc * 10 + (c.toNat - 48)) 0 = n := by
    rw [hdata, foldl_digitChar _ hlt, foldl_decimal_reverse]
    simp [decimalDigitsRev, decimalDigitsRevAux_value (n + 1) n (Nat.lt_succ_self n)]
  simp only [parseUint64, hempty, hall, Bool.not_true, Bool.or_false, if_false, hfold]
  simp [h]

theorem formatUint64_injOn (a b : Nat) (ha : a < W64) (hb : b < W64)
    (h : formatUint64 a = formatUint64 b) : a = b := by
  have h1 := parseUint64_formatUint64 a ha
  rw [h, parseUint64_formatUint64 b hb] at h1
  omega


theorem collect_pure_all :
    (∀ (s : Scrubber) (v : Value) (p : Path) (m : CallbackMap),
        pureJSON v = true → collectCallbacks s v p m = .ok (s, m)) ∧
    (∀ (s : Scrubber) (fields : FList) (p : Path) (m : CallbackMap), (True : Prop)) ∧
    (∀ (s : Scrubber) (entries : EList) (p : Path) (m : CallbackMap),
        pureJSONEList entries = true → collectEList s entries p m = .ok (s, m)) ∧
    (∀ (s : Scrubber) (items : VList) (i : Nat) (p : Path) (m : CallbackMap),
        pureJSONVList items = true → collectVList s items i p m = .ok (s, m)) := by
  apply collectCallbacks.mutual_induct <;> intros <;>
    simp_all [collectCallbacks, collectVList, collectEList, pureJSON, pureJSONVList,
      pureJSONEList, Bind.bind, Except.bind]

theorem Scrub_pure (s : Scrubber) (v : Value) (h : pureJSON v = true) :
    Scrub s v = .ok (s, []) :=
  collect_pure_all.1 s v [] [] h

theorem range'_split (s k1 k2 : Nat) :
    List.range' s k1 ++ List.range' (s + k1) k2 = List.range' s (k1 + k2) := by
  have h := List.range'_append s k1 k2 1
  rw [one_mul] at h
  rw [h, Nat.add_comm k2 k1]

theorem mapPut_fresh (l : List (Nat × Cb)) (id : Nat) (cb : Cb)
    (h : ∀ e ∈ l, e.1 ≠ id) : mapPut l id cb = l ++ [(id, cb)] := by
  have hany : l.any (fun e => e.1 == id) = false := by
    rw [List.any_eq_false]
    intro e he
    simpa using h e he
  unfold mapPut
  rw [if_neg (by simp [hany])]

theorem cmapPut_fresh (m : CallbackMap) (k : String) (p : Path)
    (h : ∀ e ∈ m, e.1 ≠ k) : cmapPut m k p = m ++ [(k, p)] := by
  have hany : m.any (fun e => e.1 == k) = false := by
    rw [List.any_eq_false]
    intro e he
    simpa using h e he
  unfold cmapPut
  rw [if_neg (by simp [hany])]

theorem collectSpec_refl (s : Scrubber) (m : CallbackMap) : CollectSpec s 0 m s m := by
  constructor
  · intro h
    rw [Nat.add_zero, Nat.mod_eq_of_lt h]
  · intro hk hK hR
    exact ⟨[], [], by simp, by simp, by simp, by simp, hK, hR⟩

theorem collectSpec_comp {s s1 s' : Scrubber} {k1 k2 : Nat} {m m1 m' : CallbackMap}
    (h1 : CollectSpec s k1 m s1 m1) (h2 : CollectSpec s1 k2 m1 s' m') :
    CollectSpec s (k1 + k2) m s' m' := by
  obtain ⟨hs1, hn1⟩ := h1
  obtain ⟨hs2, hn2⟩ := h2
  constructor
  · intro hlt
    have e1 := hs1 hlt
    have hlt1 : s1.seq < W64 := by
      rw [e1]
      exact Nat.mod_lt _ (by norm_num)
    rw [hs2 hlt1, e1, Nat.mod_add_mod, Nat.add_assoc]
  · intro hk hK hR
    have hlt : s.seq < W64 := by omega
    have hk1 : s.seq + k1 < W64 := by omega
    obtain ⟨new1, regs1, hm1, hkeys1, hc1, hrids1, hK1, hR1⟩ := hn1 hk1 hK hR
    have hseq1 : s1.seq = s.seq + k1 := by
      rw [hs1 hlt, Nat.mod_eq_of_lt hk1]
    have hk2 : s1.seq + k2 < W64 := by omega
    obtain ⟨new2, regs2, hm2, hkeys2, hc2, hrids2, hK2, hR2⟩ := hn2 hk2 hK1 hR1
    refine ⟨new1 ++ new2, regs1 ++ regs2, ?_, ?_, ?_, ?_, hK2, hR2⟩
    · rw [hm2, hm1, List.append_assoc]
    · rw [List.map_append, hkeys1, hkeys2, hseq1, ← List.map_append, range'_split]
    · rw [hc2, hc1, List.append_assoc]
    · rw [List.map_append, hrids1, hrids2, hseq1, range'_split]

theorem registerCallback_spec (s : Scrubber) (rv : RegVal) (p : Path) (m : CallbackMap)
    (s' : Scrubber) (m' : CallbackMap)
    (h : registerCallback s rv p m = .ok (s', m')) :
    CollectSpec s (regValCount rv) m s' m' := by
  by_cases hp : p = []
  · rw [registerCallback.eq_def, if_pos hp] at h
    exact absurd h (by simp)
  · have hreg : ∀ c : Cb,
        (Except.ok (⟨(s.seq + 1) % W64, mapPut s.callbacks (s.seq % W64) c⟩,
            cmapPut m (formatUint64 (s.seq % W64)) p) :
          Except String (Scrubber × CallbackMap)) = .ok (s', m') →
        CollectSpec s 1 m s' m' := by
      intro c hc
      obtain ⟨hs', hm'⟩ : (⟨(s.seq + 1) % W64, mapPut s.callbacks (s.seq % W64) c⟩ : Scrubber) = s'
          ∧ cmapPut m (formatUint64 (s.seq % W64)) p = m' := by
        simpa using hc
      subst hs' hm'
      constructor
      · intro _
        rfl
      · intro hk hK hR
        have hlt : s.seq < W64 := by omega
        have hmod : s.seq % W64 = s.seq := Nat.mod_eq_of_lt hlt
        have hmod1 : (s.seq + 1) % W64 = s.seq + 1 := Nat.mod_eq_of_lt hk
        have hfreshK : ∀ e ∈ m, e.1 ≠ formatUint64 s.seq := by
          intro e he heq
          obtain ⟨j, hj, hje⟩ := hK e he
          have := formatUint64_injOn j s.seq (by omega) hlt (by rw [← hje, heq])
          omega
        have hfreshR : ∀ e ∈ s.callbacks, e.1 ≠ s.seq := by
          intro e he
          have := hR e he
          omega
        refine ⟨[(formatUint64 s.seq, p)], [(s.seq, c)], ?_, ?_, ?_, ?_, ?_, ?_⟩
        · rw [hmod, cmapPut_fresh m _ p hfreshK]
        · simp [List.range'_one]
        · simp only [hmod]
          rw [mapPut_fresh s.callbacks _ c hfreshR]
        · simp [List.range'_one]
        · intro e he
          simp only [hmod, hmod1] at he ⊢
          rw [cmapPut_fresh m _ p hfreshK] at he
          rcases List.mem_append.mp he with h1 | h2
          · obtain ⟨j, hj, hje⟩ := hK e h1
            exact ⟨j, by omega, hje⟩
          · have h2' : e = (formatUint64 s.seq, p) := by simpa using h2
            exact ⟨s.seq, by omega, by rw [h2']⟩
        · intro e he
          simp only [hmod, hmod1] at he ⊢
          rw [mapPut_fresh s.callbacks _ c hfreshR] at he
          rcases List.mem_append.mp he with h1 | h2
          · have := hR e h1
            omega
          · have h2' : e = (s.seq, c) := by simpa using h2
            rw [h2']
            simp
    rcases rv with c | f | _
    · rcases c with _ | c0
      · rw [registerCallback.eq_def, if_neg hp] at h
        obtain ⟨rfl, rfl⟩ : s = s' ∧ m = m' := by simpa using h
        exact collectSpec_refl s m
      · rw [registerCallback.eq_def, if_neg hp] at h
        exact hreg c0 h
    · rw [registerCallback.eq_def, if_neg hp] at h
      exact hreg f h
    · rw [registerCallback.eq_def, if_neg hp] at h
      obtain ⟨rfl, rfl⟩ : s = s' ∧ m = m' := by simpa using h
      exact collectSpec_refl s m

theorem collectMethods_spec (methods : List MethodDecl) (s : Scrubber) (p : Path)
    (m : CallbackMap) (s' : Scrubber) (m' : CallbackMap)
    (h : collectMethods s methods p m = .ok (s', m')) :
    CollectSpec s (regCountMethods methods) m s' m' := by
  induction methods generalizing s m with
  | nil =>
    obtain ⟨rfl, rfl⟩ : s = s' ∧ m = m' := by simpa [collectMethods] using h
    exact collectSpec_refl s m
  | cons md rest ih =>
    rw [collectMethods] at h
    by_cases hexp : md.exported
    · rw [if_pos hexp] at h
      rcases hpf : md.pfunc with _ | f <;> rw [hpf] at h <;>
        simp only [Bind.bind, Except.bind] at h
      · rcases hreg : registerCallback s RegVal.other (p ++ [PathElem.str (lowerFirst md.mname)]) m
          with e | pr
        · rw [hreg] at h
          exact absurd h (by simp)
        · obtain ⟨s1, m1⟩ := pr
          rw [hreg] at h
          have h1 := registerCallback_spec _ _ _ _ _ _ hreg
          have h2 := ih _ _ h
          have hc := collectSpec_comp h1 h2
          simpa [regCountMethods, hexp, hpf, regValCount] using hc
      · rcases hreg : registerCallback s (RegVal.pfunc f) (p ++ [PathElem.str (lowerFirst md.mname)]) m
          with e | pr
        · rw [hreg] at h
          exact absurd h (by simp)
        · obtain ⟨s1, m1⟩ := pr
          rw [hreg] at h
          have h1 := registerCallback_spec _ _ _ _ _ _ hreg
          have h2 := ih _ _ h
          have hc := collectSpec_comp h1 h2
          simpa [regCountMethods, hexp, hpf, regValCount] using hc
    · rw [if_neg hexp] at h
      have := ih _ _ h
      simpa [regCountMethods, hexp] using this

theorem collect_spec_all :
    (∀ (s : Scrubber) (v : Value) (p : Path) (m : CallbackMap),
        ∀ s' m', collectCallbacks s v p m = .ok (s', m') →
          CollectSpec s (regCount v) m s' m') ∧
    (∀ (s : Scrubber) (fields : FList) (p : Path) (m : CallbackMap),
        ∀ s' m', collectFields s fields p m = .ok (s', m') →
          CollectSpec s (regCountFList fields) m s' m') ∧
    (∀ (s : Scrubber) (entries : EList) (p : Path) (m : CallbackMap),
        ∀ s' m', collectEList s entries p m = .ok (s', m') →
          CollectSpec s (regCountEList entries) m s' m') ∧
    (∀ (s : Scrubber) (items : VList) (i : Nat) (p : Path) (m : CallbackMap),
        ∀ s' m', collectVList s items i p m = .ok (s', m') →
          CollectSpec s (regCountVList items) m s' m') := by
  apply collectCallbacks.mutual_induct
  · intro s p m s' m' h
    obtain ⟨rfl, rfl⟩ : s = s' ∧ m = m' := by simpa [collectCallbacks] using h
    exact collectSpec_refl s m
  · intro s p m _ s' m' h
    obtain ⟨rfl, rfl⟩ : s = s' ∧ m = m' := by simpa [collectCallbacks] using h
    exact collectSpec_refl s m
  · intro s p m a ih s' m' h
    exact ih s' m' h
  · intro s p m a ih s' m' h
    exact ih s' m' h
  · intro s p m s' m' h
    obtain ⟨rfl, rfl⟩ : s = s' ∧ m = m' := by simpa [collectCallbacks] using h
    exact collectSpec_refl s m
  · intro s p m a ih s' m' h
    exact ih s' m' h
  · intro s p m s' m' h
    obtain ⟨rfl, rfl⟩ : s = s' ∧ m = m' := by simpa [collectCallbacks] using h
    exact collectSpec_refl s m
  · intro s p m a ih s' m' h
    exact ih s' m' h
  · intro s p m a s' m' h
    exact absurd h (by simp [collectCallbacks])
  · intro s p m s' m' h
    obtain ⟨rfl, rfl⟩ : s = s' ∧ m = m' := by simpa [collectCallbacks] using h
    exact collectSpec_refl s m
  · intro s p m c s' m' h
    have hs := registerCallback_spec s (.envelope c) p m s' m' h
    rcases c with _ | c0 <;> exact hs
  · intro s p m fields methods ih s' m' h
    simp only [collectCallbacks] at h
    rcases hf : collectFields s fields p m with e | pr
    · rw [hf] at h
      exact absurd h (by simp [Bind.bind, Except.bind])
    · obtain ⟨s1, m1⟩ := pr
      rw [hf] at h
      simp only [Bind.bind, Except.bind] at h
      exact collectSpec_comp (ih s1 m1 hf) (collectMethods_spec _ _ _ _ _ _ h)
  · intro s p m x hne hns s' m' h
    cases x <;>
      first
        | exact (hne _ rfl).elim
        | exact (hns _ _ rfl).elim
        | exact absurd h (by simp [collectCallbacks])
  · intro s p m a s' m' h
    have hs := registerCallback_spec s (.envelope a) p m s' m' h
    rcases a with _ | a0 <;> exact hs
  · intro s p m fields methods ih s' m' h
    simp only [collectCallbacks] at h
    rcases hf : collectFields s fields p m with e | pr
    · rw [hf] at h
      exact absurd h (by simp [Bind.bind, Except.bind])
    · obtain ⟨s1, m1⟩ := pr
      rw [hf] at h
      simp only [Bind.bind, Except.bind] at h
      exact collectSpec_comp (ih s1 m1 hf) (collectMethods_spec _ _ _ _ _ _ h)
  · intro s i p m s' m' h
    obtain ⟨rfl, rfl⟩ : s = s' ∧ m = m' := by simpa [collectVList] using h
    exact collectSpec_refl s m
  · intro s i p m a a1 ih1 ih2 s' m' h
    simp only [collectVList] at h
    rcases hx : collectCallbacks s a (p ++ [PathElem.idx i]) m with e | pr
    · rw [hx] at h
      exact absurd h (by simp [Bind.bind, Except.bind])
    · obtain ⟨s1, m1⟩ := pr
      rw [hx] at h
      simp only [Bind.bind, Except.bind] at h
      exact collectSpec_comp (ih1 s1 m1 hx) (ih2 s1 m1 s' m' h)
  · intro s p m s' m' h
    obtain ⟨rfl, rfl⟩ : s = s' ∧ m = m' := by simpa [collectEList] using h
    exact collectSpec_refl s m
  · intro s p m k v rest ih1 ih2 s' m' h
    simp only [collectEList] at h
    rcases hx : collectCallbacks s v (p ++ [PathElem.str k]) m with e | pr
    · rw [hx] at h
      exact absurd h (by simp [Bind.bind, Except.bind])
    · obtain ⟨s1, m1⟩ := pr
      rw [hx] at h
      simp only [Bind.bind, Except.bind] at h
      exact collectSpec_comp (ih1 s1 m1 hx) (ih2 s1 m1 s' m' h)
  · intro s p m s' m' h
    obtain ⟨rfl, rfl⟩ : s = s' ∧ m = m' := by simpa [collectFields] using h
    exact collectSpec_refl s m
  · intro s p m a a1 a2 hcond ih s' m' h
    simp only [collectFields] at h
    rw [if_pos hcond] at h
    have hc := ih s' m' h
    have hcf : regCountFList (FList.cons a a1 a2) = regCountFList a2 := by
      simp [regCountFList, hcond]
    rw [hcf]
    exact hc
  · intro s p m a a1 a2 hcond hanon ih1 ih2 s' m' h
    simp only [collectFields] at h
    rw [if_neg hcond, if_pos hanon] at h
    have hcf : regCountFList (FList.cons a a1 a2) = regCount a1 + regCountFList a2 := by
      have hb : (!a.exported || a.dnodeTag == "-" || a.jsonTag == "-") = false := by
        simpa using hcond
      simp [regCountFList, hb]
    rw [hcf]
    rcases hx : collectCallbacks s a1 p m with e | pr
    · rw [hx] at h
      exact absurd h (by simp [Bind.bind, Except.bind])
    · obtain ⟨s1, m1⟩ := pr
      rw [hx] at h
      simp only [Bind.bind, Except.bind] at h
      exact collectSpec_comp (ih1 s1 m1 hx) (ih2 s1 m1 s' m' h)
  · intro s p m a a1 a2 hcond name hanon ih1 ih2 s' m' h
    simp only [collectFields] at h
    rw [if_neg hcond, if_neg hanon] at h
    have hcf : regCountFList (FList.cons a a1 a2) = regCount a1 + regCountFList a2 := by
      have hb : (!a.exported || a.dnodeTag == "-" || a.jsonTag == "-") = false := by
        simpa using hcond
      simp [regCountFList, hb]
    rw [hcf]
    rcases hx : collectCallbacks s a1 (p ++ [PathElem.str name]) m with e | pr
    · rw [hx] at h
      exact absurd h (by simp [Bind.bind, Except.bind])
    · obtain ⟨s1, m1⟩ := pr
      rw [hx] at h
      simp only [Bind.bind, Except.bind] at h
      exact collectSpec_comp (ih1 s1 m1 hx) (ih2 s1 m1 s' m' h)

theorem Scrub_spec (s : Scrubber) (v : Value) (s' : Scrubber) (m' : CallbackMap)
    (h : Scrub s v = .ok (s', m')) : CollectSpec s (regCount v) [] s' m' :=
  collect_spec_all.1 s v [] [] s' m' h

theorem scrubMany_spec (vs : List Value) (s : Scrubber) (s' : Scrubber)
    (cms : List CallbackMap) (h : scrubMany s vs = .ok (s', cms)) :
    (s.seq < W64 → s'.seq = (s.seq + (vs.map regCount).sum) % W64) ∧
    (s.seq + (vs.map regCount).sum < W64 → RegInv s.callbacks s.seq →
      allocatedKeys cms = (List.range' s.seq (vs.map regCount).sum).map formatUint64 ∧
      RegInv s'.callbacks s'.seq) := by
  induction vs generalizing s cms with
  | nil =>
    obtain ⟨rfl, rfl⟩ : s = s' ∧ [] = cms := by simpa [scrubMany] using h
    constructor
    · intro hlt
      simp [Nat.mod_eq_of_lt hlt]
    · intro hk hR
      simpa [allocatedKeys] using hR
  | cons v vs ih =>
    rw [scrubMany] at h
    rcases hs : Scrub s v with e | pr
    · rw [hs] at h
      exact absurd h (by simp)
    · obtain ⟨s1, cm⟩ := pr
      rw [hs] at h
      dsimp only at h
      rcases hrest : scrubMany s1 vs with e | pr2
      · rw [hrest] at h
        exact absurd h (by simp)
      · obtain ⟨s2, cms'⟩ := pr2
        rw [hrest] at h
        obtain ⟨rfl, rfl⟩ : s2 = s' ∧ cm :: cms' = cms := by simpa using h
        obtain ⟨hone, hone_nice⟩ := Scrub_spec s v s1 cm hs
        obtain ⟨hmany, hmany_nice⟩ := ih s1 cms' hrest
        constructor
        · intro hlt
          have h1 := hone hlt
          have hlt1 : s1.seq < W64 := by
            rw [h1]
            exact Nat.mod_lt _ (by norm_num)
          rw [hmany hlt1, h1, Nat.mod_add_mod, Nat.add_assoc]
          simp
        · intro hk hR
          simp only [List.map_cons, List.sum_cons] at hk
          have hlt : s.seq < W64 := by omega
          have hk1 : s.seq + regCount v < W64 := by omega
          obtain ⟨new, regs, hm, hkeys, hc, hrids, _, hR1⟩ :=
            hone_nice hk1 (by intro e he; simp at he) hR
          have hseq1 : s1.seq = s.seq + regCount v := by
            rw [hone hlt, Nat.mod_eq_of_lt hk1]
          have hk2 : s1.seq + (vs.map regCount).sum < W64 := by omega
          obtain ⟨hkeys2, hR2⟩ := hmany_nice hk2 hR1
          refine ⟨?_, hR2⟩
          simp only [allocatedKeys, List.map_cons, List.flatten_cons] at hkeys2 ⊢
          rw [hkeys2, hseq1]
          have hcm : cm.map Prod.fst = (List.range' s.seq (regCount v)).map formatUint64 := by
            rw [hm]
            simpa using hkeys
          rw [hcm, ← List.map_append, range'_split]
          simp

/-- C7: callback IDs allocated by the scrubber start at 0 and, across every
sequence of `Scrub` calls on one session that performs fewer than 2^64
registrations in total, are strictly increasing and unique; and each
registration that stores a callback fetches the current value of the
sequence counter as the new ID and increments the counter by one
(`atomic.AddUint64(&s.seq, 1) - 1`). -/
theorem c7_callback_ids :
    (∀ (s : Scrubber) (rv : RegVal) (p : Path) (m : CallbackMap) (s' : Scrubber)
        (m' : CallbackMap), registerCallback s rv p m = .ok (s', m') →
      (s' = s ∧ m' = m) ∨
      (∃ cb, s'.seq = (s.seq + 1) % W64 ∧
        s'.callbacks = mapPut s.callbacks (s.seq % W64) cb ∧
        m' = cmapPut m (formatUint64 (s.seq % W64)) p)) ∧
    (∀ (vs : List Value) (s' : Scrubber) (cms : List CallbackMap),
        scrubMany NewScrubber vs = .ok (s', cms) →
        (vs.map regCount).sum < W64 →
        s'.seq = (vs.map regCount).sum ∧
        allocatedKeys cms = (List.range (vs.map regCount).sum).map formatUint64 ∧
        (allocatedKeys cms).map parseUint64 = List.range (vs.map regCount).sum ∧
        List.Pairwise (· < ·) ((allocatedKeys cms).map parseUint64) ∧
        ((allocatedKeys cms).map parseUint64).Nodup) := by
  constructor
  · intro s rv p m s' m' h
    by_cases hp : p = []
    · rw [registerCallback.eq_def, if_pos hp] at h
      exact absurd h (by simp)
    · rw [registerCallback.eq_def, if_neg hp] at h
      rcases rv with c | f | _
      · rcases c with _ | c0
        · left
          have := by simpa using h
          exact ⟨this.1.symm, this.2.symm⟩
        · right
          obtain ⟨h1, h2⟩ : (⟨(s.seq + 1) % W64, mapPut s.callbacks (s.seq % W64) c0⟩ : Scrubber) = s'
              ∧ cmapPut m (formatUint64 (s.seq % W64)) p = m' := by simpa using h
          exact ⟨c0, by rw [← h1], by rw [← h1], h2.symm⟩
      · right
        obtain ⟨h1, h2⟩ : (⟨(s.seq + 1) % W64, mapPut s.callbacks (s.seq % W64) f⟩ : Scrubber) = s'
            ∧ cmapPut m (formatUint64 (s.seq % W64)) p = m' := by simpa using h
        exact ⟨f, by rw [← h1], by rw [← h1], h2.symm⟩
      · left
        have := by simpa using h
        exact ⟨this.1.symm, this.2.symm⟩
  · intro vs s' cms h hfit
    obtain ⟨hseq, hnice⟩ := scrubMany_spec vs NewScrubber s' cms h
    have h0 : NewScrubber.seq = 0 := rfl
    have hseq' : s'.seq = (vs.map regCount).sum := by
      have := hseq (by rw [h0]; norm_num)
      rw [this, h0, Nat.zero_add, Nat.mod_eq_of_lt hfit]
    obtain ⟨hkeys, _⟩ := hnice (by rw [h0]; omega) (by intro e he; simp [NewScrubber] at he)
    rw [h0] at hkeys
    rw [← List.range_eq_range'] at hkeys
    have hparse : (allocatedKeys cms).map parseUint64 = List.range (vs.map regCount).sum := by
      rw [hkeys, List.map_map]
      have : ∀ j ∈ List.range (vs.map regCount).sum, (parseUint64 ∘ formatUint64) j = id j := by
        intro j hj
        have hjlt : j < (vs.map regCount).sum := List.mem_range.mp hj
        simpa using parseUint64_formatUint64 j (by omega)
      rw [List.map_congr_left this, List.map_id]
    refine ⟨hseq', hkeys, hparse, ?_, ?_⟩
    · rw [hparse]
      exact List.pairwise_lt_range _
    · rw [hparse]
      exact List.nodup_range _

/-- C7 witness: starting from a fresh scrubber, two Scrub calls each carrying
one wrapped callback allocate the keys "0", "1" — parsed back they are 0, 1:
starting at 0, strictly increasing, unique. -/
theorem c7_callback_ids_witness :
    (allocatedKeys [[("0", [PathElem.idx 0])], [("1", [PathElem.idx 0])]]).map parseUint64
      = [0, 1]
    ∧ List.Pairwise (· < ·)
        ((allocatedKeys [[("0", [PathElem.idx 0])], [("1", [PathElem.idx 0])]]).map parseUint64) := by
  have h := c7_callback_ids.2
    [Value.arr (.cons (.envelope (some 5)) .nil), Value.arr (.cons (.envelope (some 6)) .nil)]
    ⟨2, [(0, 5), (1, 6)]⟩ [[("0", [PathElem.idx 0])], [("1", [PathElem.idx 0])]]
    rfl (by decide)
  constructor
  · rw [h.2.2.1]
    rfl
  · exact h.2.2.2.1

/-- C6: for every pure-JSON argument value (only nil, numbers, strings,
booleans, arrays and maps — no callables), `Scrub` returns an empty
callback-path map and leaves the registry and the sequence counter
unchanged. -/
theorem c6_scrub_pure_json (s : Scrubber) (v : Value) (h : pureJSON v = true) :
    Scrub s v = .ok (s, []) :=
  Scrub_pure s v h

/-- C6 witness: a concrete pure-JSON value scrubbed against a non-trivial
scrubber leaves it untouched. -/
theorem c6_scrub_pure_json_witness :
    Scrub ⟨7, [(3, 1)]⟩
        (.arr (.cons (.scalar 4) (.cons (.vmap (.cons "k" .vnil .nil)) .nil)))
      = .ok (⟨7, [(3, 1)]⟩, []) :=
  c6_scrub_pure_json _ _ (by decide)

/-- C4 counterexample: `Scrub` on a root-level bare callable does not return
at all — the Go code panics ("cannot marshal func, use Callback() to wrap
it"), modelled as `Except.error` — so it cannot yield a well-typed error
value as the claim states. -/
theorem c4_root_callable_counterexample :
    ¬ ∃ r, Scrub NewScrubber (.bfunc 0) = .ok r := by
  rintro ⟨r, h⟩
  simp [Scrub, collectCallbacks] at h

theorem collect_rawfunc_all :
    (∀ (s : Scrubber) (v : Value) (p : Path) (m : CallbackMap),
        containsRawFunc v = true →
          ∃ msg, collectCallbacks s v p m = .error msg) ∧
    (∀ (s : Scrubber) (fields : FList) (p : Path) (m : CallbackMap),
        containsRawFuncFList fields = true →
          ∃ msg, collectFields s fields p m = .error msg) ∧
    (∀ (s : Scrubber) (entries : EList) (p : Path) (m : CallbackMap),
        containsRawFuncEList entries = true →
          ∃ msg, collectEList s entries p m = .error msg) ∧
    (∀ (s : Scrubber) (items : VList) (i : Nat) (p : Path) (m : CallbackMap),
        containsRawFuncVList items = true →
          ∃ msg, collectVList s items i p m = .error msg) := by
  apply collectCallbacks.mutual_induct
  · intro s p m h
    simp [containsRawFunc] at h
  · intro s p m _ h
    simp [containsRawFunc] at h
  · intro s p m a ih h
    exact ih h
  · intro s p m a ih h
    exact ih h
  · intro s p m h
    simp [containsRawFunc] at h
  · intro s p m a ih h
    exact ih h
  · intro s p m h
    simp [containsRawFunc] at h
  · intro s p m a ih h
    exact ih h
  · intro s p m a _
    exact ⟨"cannot marshal func, use Callback() to wrap it", rfl⟩
  · intro s p m h
    simp [containsRawFunc] at h
  · intro s p m c h
    simp [containsRawFunc] at h
  · intro s p m fields methods ih h
    obtain ⟨msg, he⟩ := ih h
    refine ⟨msg, ?_⟩
    simp only [collectCallbacks]
    rw [he]
    rfl
  · intro s p m x hne hns h
    cases x <;>
      first
        | exact (hns _ _ rfl).elim
        | simp [containsRawFunc] at h
  · intro s p m a h
    simp [containsRawFunc] at h
  · intro s p m fields methods ih h
    obtain ⟨msg, he⟩ := ih h
    refine ⟨msg, ?_⟩
    simp only [collectCallbacks]
    rw [he]
    rfl
  · intro s i p m h
    simp [containsRawFuncVList] at h
  · intro s i p m a a1 ih1 ih2 h
    have h' : (containsRawFunc a || containsRawFuncVList a1) = true := h
    by_cases hx : containsRawFunc a = true
    · obtain ⟨msg, he⟩ := ih1 hx
      refine ⟨msg, ?_⟩
      simp only [collectVList]
      rw [he]
      rfl
    · have hxs : containsRawFuncVList a1 = true := by
        simp only [Bool.or_eq_true] at h'
        rcases h' with h1 | h2
        · exact absurd h1 hx
        · exact h2
      rcases hc : collectCallbacks s a (p ++ [PathElem.idx i]) m with e | pr
      · refine ⟨e, ?_⟩
        simp only [collectVList]
        rw [hc]
        rfl
      · obtain ⟨s1, m1⟩ := pr
        obtain ⟨msg, he⟩ := ih2 s1 m1 hxs
        refine ⟨msg, ?_⟩
        simp only [collectVList]
        rw [hc]
        simp only [Bind.bind, Except.bind]
        exact he
  · intro s p m h
    simp [containsRawFuncEList] at h
  · intro s p m k v rest ih1 ih2 h
    have h' : (containsRawFunc v || containsRawFuncEList rest) = true := h
    by_cases hx : containsRawFunc v = true
    · obtain ⟨msg, he⟩ := ih1 hx
      refine ⟨msg, ?_⟩
      simp only [collectEList]
      rw [he]
      rfl
    · have hxs : containsRawFuncEList rest = true := by
        simp only [Bool.or_eq_true] at h'
        rcases h' with h1 | h2
        · exact absurd h1 hx
        · exact h2
      rcases hc : collectCallbacks s v (p ++ [PathElem.str k]) m with e | pr
      · refine ⟨e, ?_⟩
        simp only [collectEList]
        rw [hc]
        rfl
      · obtain ⟨s1, m1⟩ := pr
        obtain ⟨msg, he⟩ := ih2 s1 m1 hxs
        refine ⟨msg, ?_⟩
        simp only [collectEList]
        rw [hc]
        simp only [Bind.bind, Except.bind]
        exact he
  · intro s p m h
    simp [containsRawFuncFList] at h
  · intro s p m a a1 a2 hcond ih h
    have h' : containsRawFuncFList a2 = true := by
      simpa [containsRawFuncFList, hcond] using h
    obtain ⟨msg, he⟩ := ih h'
    refine ⟨msg, ?_⟩
    simp only [collectFields]
    rw [if_pos hcond]
    exact he
  · intro s p m a a1 a2 hcond hanon ih1 ih2 h
    have hb : (!a.exported || a.dnodeTag == "-" || a.jsonTag == "-") = false := by
      simpa using hcond
    have h' : (containsRawFunc a1 || containsRawFuncFList a2) = true := by
      simpa [containsRawFuncFList, hb] using h
    by_cases hx : containsRawFunc a1 = true
    · obtain ⟨msg, he⟩ := ih1 hx
      refine ⟨msg, ?_⟩
      simp only [collectFields]
      rw [if_neg hcond, if_pos hanon, he]
      rfl
    · have hxs : containsRawFuncFList a2 = true := by
        simp only [Bool.or_eq_true] at h'
        rcases h' with h1 | h2
        · exact absurd h1 hx
        · exact h2
      rcases hc : collectCallbacks s a1 p m with e | pr
      · refine ⟨e, ?_⟩
        simp only [collectFields]
        rw [if_neg hcond, if_pos hanon, hc]
        rfl
      · obtain ⟨s1, m1⟩ := pr
        obtain ⟨msg, he⟩ := ih2 s1 m1 hxs
        refine ⟨msg, ?_⟩
        simp only [collectFields]
        rw [if_neg hcond, if_pos hanon, hc]
        simp only [Bind.bind, Except.bind]
        exact he
  · intro s p m a a1 a2 hcond name hanon ih1 ih2 h
    have hb : (!a.exported || a.dnodeTag == "-" || a.jsonTag == "-") = false := by
      simpa using hcond
    have h' : (containsRawFunc a1 || containsRawFuncFList a2) = true := by
      simpa [containsRawFuncFList, hb] using h
    by_cases hx : containsRawFunc a1 = true
    · obtain ⟨msg, he⟩ := ih1 hx
      refine ⟨msg, ?_⟩
      simp only [collectFields]
      rw [if_neg hcond, if_neg hanon, he]
      rfl
    · have hxs : containsRawFuncFList a2 = true := by
        simp only [Bool.or_eq_true] at h'
        rcases h' with h1 | h2
        · exact absurd h1 hx
        · exact h2
      rcases hc : collectCallbacks s a1 (p ++ [PathElem.str name]) m with e | pr
      · refine ⟨e, ?_⟩
        simp only [collectFields]
        rw [if_neg hcond, if_neg hanon, hc]
        rfl
      · obtain ⟨s1, m1⟩ := pr
        obtain ⟨msg, he⟩ := ih2 s1 m1 hxs
        refine ⟨msg, ?_⟩
        simp only [collectFields]
        rw [if_neg hcond, if_neg hanon, hc]
        simp only [Bind.bind, Except.bind]
        exact he

/-- C4 (amended): `Scrub` raises a Go panic (modelled as `Except.error`)
instead of returning a well-typed error, and registers nothing for the
offending value.  (1) A bare callable at the root panics "cannot marshal
func, use Callback() to wrap it".  (2) A Function envelope at the root
(empty path) panics "root element must be a struct or slice".  (3) At every
point of the walk — any path, any scrubber state, any accumulated map —
encountering a bare unwrapped callable panics immediately with that same
message: the result is the error, not an updated `(scrubber, map)` pair, so
no ID is allocated, no registry entry and no path-map entry is produced for
it.  (4) For every tree whose traversal reaches a raw unwrapped callable,
`Scrub` panics with some panic message and never returns a callback map, so
no callback is registered for such a value. -/
theorem c4_scrub_raw_callable_panics :
    (∀ (s : Scrubber) (f : Cb),
      Scrub s (.bfunc f) = .error "cannot marshal func, use Callback() to wrap it") ∧
    (∀ (s : Scrubber) (c : Option Cb),
      Scrub s (.envelope c) = .error "root element must be a struct or slice") ∧
    (∀ (s : Scrubber) (f : Cb) (p : Path) (m : CallbackMap),
      collectCallbacks s (.bfunc f) p m
        = .error "cannot marshal func, use Callback() to wrap it") ∧
    (∀ (s : Scrubber) (v : Value), containsRawFunc v = true →
      (∃ msg, Scrub s v = .error msg) ∧ ∀ r, Scrub s v ≠ .ok r) := by
  refine ⟨fun s f => rfl, fun s c => rfl, fun s f p m => rfl, ?_⟩
  intro s v h
  obtain ⟨msg, he⟩ := collect_rawfunc_all.1 s v [] [] h
  have herr : Scrub s v = .error msg := he
  refine ⟨⟨msg, herr⟩, ?_⟩
  intro r hr
  rw [herr] at hr
  simp at hr

/-- C4 witness: a concrete tree holding an unwrapped callable under a map
key makes Scrub panic and never return a callback map. -/
theorem c4_scrub_raw_callable_panics_witness :
    (∃ msg, Scrub NewScrubber (.vmap (.cons "cb" (.bfunc 3) .nil)) = .error msg)
    ∧ ∀ r, Scrub NewScrubber (.vmap (.cons "cb" (.bfunc 3) .nil)) ≠ .ok r :=
  c4_scrub_raw_callable_panics.2.2.2 NewScrubber
    (.vmap (.cons "cb" (.bfunc 3) .nil)) (by decide)

/-- C9: `registerCallback` on a Function envelope whose Caller is nil, and
on a value that is neither an envelope nor a `func(*dnode.Partial)`,
returns without allocating an ID, without touching the registry, without
adding a map entry, and without an error — for the non-empty paths its
callers pass. -/
theorem c9_register_nil_caller_noop (s : Scrubber) (p : Path) (m : CallbackMap)
    (hp : p ≠ []) :
    registerCallback s (.envelope none) p m = .ok (s, m)
    ∧ registerCallback s .other p m = .ok (s, m) := by
  constructor <;> rw [registerCallback.eq_def, if_neg hp]

/-- C9 witness. -/
theorem c9_register_nil_caller_noop_witness :
    registerCallback ⟨5, [(2, 2)]⟩ (.envelope none) [PathElem.str "x"] [] = .ok (⟨5, [(2, 2)]⟩, [])
    ∧ registerCallback ⟨5, [(2, 2)]⟩ .other [PathElem.str "x"] [] = .ok (⟨5, [(2, 2)]⟩, []) :=
  c9_register_nil_caller_noop _ _ _ (by decide)

/-- C3: `processMessage` dispatches on the JSON token kind of the method
slot: a numeric method consults the scrubber and fails with
callback-not-found exactly when the ID is unregistered; a string method
consults the handler table and fails with method-not-found exactly when the
name is absent; any other kind is the malformed-method error; and no string
method (in particular "1") ever produces a callback result. -/
theorem c3_processMessage_dispatch (s : Scrubber) (handlers : List (String × HandlerTok))
    (msg : Message) :
    (∀ n, msg.method = .num n →
      ((processMessage s handlers true msg = .callbackNotFound n ↔ GetCallback s n = none) ∧
        ∀ cb, GetCallback s n = some cb →
          processMessage s handlers true msg = .callbackInvoked n cb)) ∧
    (∀ name, msg.method = .str name →
      ((processMessage s handlers true msg = .methodNotFound name ↔
          handlers.lookup name = none) ∧
        ∀ h, handlers.lookup name = some h →
          processMessage s handlers true msg = .methodInvoked name h)) ∧
    (msg.method = .other → processMessage s handlers true msg = .malformedMethod) ∧
    (∀ q, msg.method = .str q → ∀ id cb,
      processMessage s handlers true msg ≠ .callbackInvoked id cb ∧
      processMessage s handlers true msg ≠ .callbackNotFound id) := by
  refine ⟨?_, ?_, ?_, ?_⟩
  · intro n hm
    constructor
    · rcases hg : GetCallback s n with _ | cb <;> simp [processMessage, hm, hg]
    · intro cb hcb
      simp [processMessage, hm, hcb]
  · intro name hm
    constructor
    · rcases hl : handlers.lookup name with _ | hh <;> simp [processMessage, hm, hl]
    · intro hh hlk
      simp [processMessage, hm, hlk]
  · intro hm
    simp [processMessage, hm]
  · intro q hm id cb
    rcases hl : handlers.lookup q with _ | hh <;> simp [processMessage, hm, hl]

/-- C3 witness: with callback 1 registered and handler "echo" present, a
numeric method 5 fails callback-not-found, while the string method "1" is
dispatched as a (missing) named method, never as callback 1. -/
theorem c3_processMessage_dispatch_witness :
    processMessage ⟨2, [(1, 9)]⟩ [("echo", 3)] true ⟨.num 5, .nil, []⟩ = .callbackNotFound 5
    ∧ processMessage ⟨2, [(1, 9)]⟩ [("echo", 3)] true ⟨.str "1", .nil, []⟩ = .methodNotFound "1"
    ∧ processMessage ⟨2, [(1, 9)]⟩ [("echo", 3)] true ⟨.str "1", .nil, []⟩ ≠ .callbackNotFound 1 := by
  refine ⟨?_, ?_, ?_⟩
  · exact ((c3_processMessage_dispatch _ _ _).1 5 rfl).1.mpr rfl
  · exact ((c3_processMessage_dispatch _ _ _).2.1 "1" rfl).1.mpr rfl
  · exact (((c3_processMessage_dispatch _ _ _).2.2.2 "1" rfl) 1 0).2

/-- C1 (failing behavior): after a `GoWithTimeout`/`TellWithTimeout` send,
the response callback is stored under the path `[0, "responseCallback"]`
whose first element is the *int* 0 (`collectCallbacks` appends the slice
index as an int) — not the *string* "0" that `sendCallbackID` demands — so
`sendCallbackID` closes the remove-callback channel instead of forwarding
the ID, the timeout branch evicts nothing, and the registry stays one entry
above its pre-call baseline.  The last conjunct shows the entry
`sendCallbackID` was written for (both path elements strings) would have
been matched. -/
theorem c1_sendCallbackID_path_mismatch :
    Scrub NewScrubber (.arr (wrapMethodArgs (.strct .nil []) none .nil (some 9)))
      = .ok (⟨1, [(0, 9)]⟩, [("0", [PathElem.idx 0, PathElem.str "responseCallback"])])
    ∧ sendCallbackID [("0", [PathElem.idx 0, PathElem.str "responseCallback"])] = none
    ∧ timeoutEvict ⟨1, [(0, 9)]⟩
        (sendCallbackID [("0", [PathElem.idx 0, PathElem.str "responseCallback"])])
      = ⟨1, [(0, 9)]⟩
    ∧ (⟨1, [(0, 9)]⟩ : Scrubber).callbacks.length = NewScrubber.callbacks.length + 1
    ∧ sendCallbackID [("0", [PathElem.str "0", PathElem.str "responseCallback"])] = some 0 :=
  ⟨rfl, rfl, rfl, rfl, rfl⟩

/-- C5 (failing behavior): `marshalAndSend` sets the named return
`callbacks` to nil before the deferred cleanup runs on the two
marshal-failure paths, so the callback the call registered stays in the
registry (first conjuncts: argument-marshal failure — the error is
propagated but ID 0 is still registered); only the `sendData`-failure path
still holds the real map and drains it (last conjuncts). -/
theorem c5_marshal_failure_keeps_callbacks :
    marshalAndSend NewScrubber ⟨false, true, true, true⟩ (.str "m")
        (.cons (.envelope (some 7)) .nil)
      = .ok { callbacks := [], err := some "json: unsupported value in arguments",
              scrubber := ⟨1, [(0, 7)]⟩, sent := none }
    ∧ GetCallback ⟨1, [(0, 7)]⟩ 0 = some 7
    ∧ marshalAndSend NewScrubber ⟨true, true, false, true⟩ (.str "m")
        (.cons (.envelope (some 7)) .nil)
      = .ok { callbacks := [("0", [PathElem.idx 0])], err := some "not connected",
              scrubber := ⟨1, []⟩, sent := none }
    ∧ GetCallback ⟨1, []⟩ 0 = none :=
  ⟨rfl, rfl, rfl, rfl⟩

/-- C10: a `Tell`/`Go` send attempted while the connection handle is nil
fails with the error "not connected", the caller's response channel
receives a response whose error is a sendError, and no panic is raised (the
call returns normally, `Except.ok`). -/
theorem c10_send_not_connected (s : Scrubber) (env : SendEnv) (kiteV : Value)
    (auth : Option (String × String)) (cbTok : Cb) (method : String) (args : VList)
    (s1 : Scrubber) (cbs : CallbackMap)
    (hscrub : Scrub s (.arr (wrapMethodArgs kiteV auth args (some cbTok))) = .ok (s1, cbs))
    (hargs : env.argsMarshalOk = true) (hmsg : env.msgMarshalOk = true)
    (hconn : env.connected = false) :
    sendMethod s env kiteV auth cbTok method args
      = .ok { scrubber := removeCallbacks s1 cbs,
              responseSent := some ⟨none, some ⟨"sendError", "not connected"⟩⟩,
              callbacks := cbs, removeCallbackMsg := none, sent := none } := by
  have hmas : marshalAndSend s env (.str method) (wrapMethodArgs kiteV auth args (some cbTok))
      = .ok { callbacks := cbs, err := some "not connected",
              scrubber := removeCallbacks s1 cbs, sent := none } := by
    simp only [marshalAndSend]
    rw [hscrub]
    simp [hargs, hmsg, sendData, hconn]
  simp only [sendMethod]
  rw [hmas]

/-- C10 witness. -/
theorem c10_send_not_connected_witness :
    sendMethod NewScrubber ⟨true, true, false, true⟩ (.strct .nil []) none 9 "echo" .nil
      = .ok { scrubber := ⟨1, []⟩,
              responseSent := some ⟨none, some ⟨"sendError", "not connected"⟩⟩,
              callbacks := [("0", [PathElem.idx 0, PathElem.str "responseCallback"])],
              removeCallbackMsg := none, sent := none } := by
  have h := c10_send_not_connected NewScrubber ⟨true, true, false, true⟩ (.strct .nil []) none
    9 "echo" .nil ⟨1, [(0, 9)]⟩ [("0", [PathElem.idx 0, PathElem.str "responseCallback"])]
    rfl rfl rfl rfl
  exact h

/-- C8: on an inbound call (non-empty remote address) with authentication
enabled and a response callback present: the authenticator matching the
authentication type runs before the handler — when authentication fails
(missing credentials, unknown type, or rejection) the reply is an
authenticationError and the handler does not run; on success the
authenticated username overwrites the caller's self-reported one, so the
handler observes `request.Client.Kite.Username` equal to the authenticated
username. -/
theorem c8_authentication_gates_handler
    (authenticators : List (String × Authenticator)) (r0 : Request)
    (handler : MHandler) (hremote : r0.client.remoteAddr ≠ "") :
    (r0.authentication = none →
      runMethod false authenticators r0 true handler
        = { handlerRan := false, handlerSawKiteUsername := none,
            reply := some ⟨none, some ⟨"authenticationError",
              "No authentication information is provided"⟩⟩ }) ∧
    (∀ a, r0.authentication = some a → authenticators.lookup a.authType = none →
      runMethod false authenticators r0 true handler
        = { handlerRan := false, handlerSawKiteUsername := none,
            reply := some ⟨none, some ⟨"authenticationError",
              "Unknown authentication type: " ++ a.authType⟩⟩ }) ∧
    (∀ a f e, r0.authentication = some a → authenticators.lookup a.authType = some f →
      f a = .error e →
      runMethod false authenticators r0 true handler
        = { handlerRan := false, handlerSawKiteUsername := none,
            reply := some ⟨none, some ⟨"authenticationError", e⟩⟩ }) ∧
    (∀ a f u, r0.authentication = some a → authenticators.lookup a.authType = some f →
      f a = .ok u →
      (runMethod false authenticators r0 true handler).handlerRan = true ∧
      (runMethod false authenticators r0 true handler).handlerSawKiteUsername = some u) := by
  refine ⟨?_, ?_, ?_, ?_⟩
  · intro hauth
    simp [runMethod, authenticate, hremote, hauth]
  · intro a hauth hlk
    simp [runMethod, authenticate, hremote, hauth, hlk]
  · intro a f e hauth hlk hf
    simp [runMethod, authenticate, hremote, hauth, hlk, hf]
  · intro a f u hauth hlk hf
    constructor <;> simp [runMethod, authenticate, hremote, hauth, hlk, hf]

/-- C8 witness: the caller self-reports username "root" but authenticates
as "alice"; the handler sees "alice".  Without credentials the handler does
not run. -/
theorem c8_authentication_gates_handler_witness :
    (runMethod false [("token", fun _ => .ok "alice")]
        ⟨"echo", ⟨"12.06.0.1:5555", "root"⟩, "", some ⟨"token", "k"⟩⟩ true
        (fun _ => (some 1, none))).handlerSawKiteUsername = some "alice"
    ∧ (runMethod false [("token", fun _ => .ok "alice")]
        ⟨"echo", ⟨"12.06.0.1:5555", "root"⟩, "", none⟩ true
        (fun _ => (some 1, none))).handlerRan = false := by
  constructor
  · exact ((c8_authentication_gates_handler [("token", fun _ => .ok "alice")]
      ⟨"echo", ⟨"12.06.0.1:5555", "root"⟩, "", some ⟨"token", "k"⟩⟩ (fun _ => (some 1, none))
      (by decide)).2.2.2 ⟨"token", "k"⟩ _ "alice" rfl rfl rfl).2
  · have h := (c8_authentication_gates_handler [("token", fun _ => .ok "alice")]
      ⟨"echo", ⟨"12.06.0.1:5555", "root"⟩, "", none⟩ (fun _ => (some 1, none))
      (by decide)).1 rfl
    rw [h]

theorem ptlGet_ptlSet_self (items : List PTree) (i : Nat) (c x : PTree)
    (h : ptlGet items i = some c) : ptlGet (ptlSet items i x) i = some x := by
  induction items generalizing i with
  | nil => simp [ptlGet] at h
  | cons hd tl ih =>
    cases i with
    | zero => simp [ptlGet, ptlSet]
    | succ n =>
      simp only [ptlGet, ptlSet] at h ⊢
      exact ih n h

theorem ptlGet_ptlSet_ne (items : List PTree) (i j : Nat) (x : PTree) (h : i ≠ j) :
    ptlGet (ptlSet items i x) j = ptlGet items j := by
  induction items generalizing i j with
  | nil => simp [ptlSet]
  | cons hd tl ih =>
    cases i with
    | zero =>
      cases j with
      | zero => omega
      | succ n => simp [ptlGet, ptlSet]
    | succ n =>
      cases j with
      | zero => simp [ptlGet, ptlSet]
      | succ k =>
        simp only [ptlGet, ptlSet]
        exact ih n k (by omega)

theorem pteGet_pteSet_self (entries : List (String × PTree)) (k : String) (c x : PTree)
    (h : pteGet entries k = some c) : pteGet (pteSet entries k x) k = some x := by
  induction entries with
  | nil => simp [pteGet] at h
  | cons e t ih =>
    obtain ⟨k0, h0⟩ := e
    by_cases hk : k0 = k
    · simp [pteGet, pteSet, hk]
    · simp only [pteGet, pteSet, if_neg hk] at h ⊢
      exact ih h

theorem pteGet_pteSet_ne (entries : List (String × PTree)) (k k' : String) (x : PTree)
    (h : k ≠ k') : pteGet (pteSet entries k x) k' = pteGet entries k' := by
  induction entries with
  | nil => simp [pteSet]
  | cons e t ih =>
    obtain ⟨k0, h0⟩ := e
    by_cases hk : k0 = k
    · subst hk
      have hk' : k0 ≠ k' := h
      simp [pteGet, pteSet, hk']
    · simp only [pteSet, if_neg hk]
      by_cases hk' : k0 = k'
      · simp [pteGet, hk']
      · simp [pteGet, hk', ih]

theorem getPath_setPath_self (p : Path) (t t' nv : PTree)
    (h : setPath p t nv = some t') : getPath p t' = some nv := by
  induction p generalizing t t' with
  | nil =>
    have hx : nv = t' := by simpa [setPath] using h
    subst hx
    rfl
  | cons a rest ih =>
    cases a with
    | str k =>
      cases t with
      | pobj entries =>
        simp only [setPath] at h
        rcases hg : pteGet entries k with _ | c
        · rw [hg] at h
          simp at h
        · rw [hg] at h
          dsimp only at h
          rcases hsp : setPath rest c nv with _ | c'
          · rw [hsp] at h
            simp at h
          · rw [hsp] at h
            have ht' : PTree.pobj (pteSet entries k c') = t' := by simpa using h
            subst ht'
            simp only [getPath]
            rw [pteGet_pteSet_self entries k c c' hg]
            exact ih c c' hsp
      | null => simp [setPath] at h
      | pscalar tag => simp [setPath] at h
      | parr items => simp [setPath] at h
      | callbackProxy idv => simp [setPath] at h
    | idx i =>
      cases t with
      | parr items =>
        simp only [setPath] at h
        rcases hg : ptlGet items i with _ | c
        · rw [hg] at h
          simp at h
        · rw [hg] at h
          dsimp only at h
          rcases hsp : setPath rest c nv with _ | c'
          · rw [hsp] at h
            simp at h
          · rw [hsp] at h
            have ht' : PTree.parr (ptlSet items i c') = t' := by simpa using h
            subst ht'
            simp only [getPath]
            rw [ptlGet_ptlSet_self items i c c' hg]
            exact ih c c' hsp
      | null => simp [setPath] at h
      | pscalar tag => simp [setPath] at h
      | pobj entries => simp [setPath] at h
      | callbackProxy idv => simp [setPath] at h

theorem setPath_of_getPath (p : Path) (t nv : PTree)
    (h : (getPath p t).isSome = true) : ∃ t', setPath p t nv = some t' := by
  induction p generalizing t with
  | nil => exact ⟨nv, rfl⟩
  | cons a rest ih =>
    cases a with
    | str k =>
      cases t with
      | pobj entries =>
        simp only [getPath] at h
        rcases hg : pteGet entries k with _ | c
        · rw [hg] at h
          simp at h
        · rw [hg] at h
          dsimp only at h
          obtain ⟨c', hc'⟩ := ih c h
          exact ⟨.pobj (pteSet entries k c'), by simp [setPath, hg, hc']⟩
      | null => simp [getPath] at h
      | pscalar tag => simp [getPath] at h
      | parr items => simp [getPath] at h
      | callbackProxy idv => simp [getPath] at h
    | idx i =>
      cases t with
      | parr items =>
        simp only [getPath] at h
        rcases hg : ptlGet items i with _ | c
        · rw [hg] at h
          simp at h
        · rw [hg] at h
          dsimp only at h
          obtain ⟨c', hc'⟩ := ih c h
          exact ⟨.parr (ptlSet items i c'), by simp [setPath, hg, hc']⟩
      | null => simp [getPath] at h
      | pscalar tag => simp [getPath] at h
      | pobj entries => simp [getPath] at h
      | callbackProxy idv => simp [getPath] at h

theorem getPath_setPath_diverge (p : Path) (q : Path) (t t' nv : PTree)
    (hd : pathsDiverge p q = true) (h : setPath p t nv = some t') :
    getPath q t' = getPath q t := by
  induction p generalizing q t t' with
  | nil => simp [pathsDiverge] at hd
  | cons a p' ih =>
    cases q with
    | nil => simp [pathsDiverge] at hd
    | cons b q' =>
      rw [show pathsDiverge (a :: p') (b :: q') = (a != b || pathsDiverge p' q') from rfl,
        Bool.or_eq_true] at hd
      cases a with
      | idx i =>
        cases t with
        | parr items =>
          simp only [setPath] at h
          rcases hg : ptlGet items i with _ | c
          · rw [hg] at h
            simp at h
          · rw [hg] at h
            dsimp only at h
            rcases hsp : setPath p' c nv with _ | c'
            · rw [hsp] at h
              simp at h
            · rw [hsp] at h
              have ht' : PTree.parr (ptlSet items i c') = t' := by simpa using h
              subst ht'
              cases b with
              | str k => simp [getPath]
              | idx j =>
                by_cases hij : i = j
                · subst hij
                  have hd' : pathsDiverge p' q' = true := by
                    rcases hd with h1 | h2
                    · simp at h1
                    · exact h2
                  simp only [getPath]
                  rw [ptlGet_ptlSet_self items i c c' hg, hg]
                  exact ih q' c c' hd' hsp
                · simp only [getPath]
                  rw [ptlGet_ptlSet_ne items i j c' hij]
        | null => simp [setPath] at h
        | pscalar tag => simp [setPath] at h
        | pobj entries => simp [setPath] at h
        | callbackProxy idv => simp [setPath] at h
      | str k =>
        cases t with
        | pobj entries =>
          simp only [setPath] at h
          rcases hg : pteGet entries k with _ | c
          · rw [hg] at h
            simp at h
          · rw [hg] at h
            dsimp only at h
            rcases hsp : setPath p' c nv with _ | c'
            · rw [hsp] at h
              simp at h
            · rw [hsp] at h
              have ht' : PTree.pobj (pteSet entries k c') = t' := by simpa using h
              subst ht'
              cases b with
              | idx j => simp [getPath]
              | str k' =>
                by_cases hkk : k = k'
                · subst hkk
                  have hd' : pathsDiverge p' q' = true := by
                    rcases hd with h1 | h2
                    · simp at h1
                    · exact h2
                  simp only [getPath]
                  rw [pteGet_pteSet_self entries k c c' hg, hg]
                  exact ih q' c c' hd' hsp
                · simp only [getPath]
                  rw [pteGet_pteSet_ne entries k k' c' hkk]
        | null => simp [setPath] at h
        | pscalar tag => simp [setPath] at h
        | parr items => simp [setPath] at h
        | callbackProxy idv => simp [setPath] at h

theorem pathsDiverge_comm (p q : Path) : pathsDiverge p q = pathsDiverge q p := by
  induction p generalizing q with
  | nil => cases q <;> simp [pathsDiverge]
  | cons a p' ih =>
    cases q with
    | nil => simp [pathsDiverge]
    | cons b q' =>
      show (a != b || pathsDiverge p' q') = (b != a || pathsDiverge q' p')
      rw [ih q']
      by_cases hab : a = b
      · subst hab
        rfl
      · have h1 : (a != b) = true := by simp [hab]
        have h2 : (b != a) = true := by simp [Ne.symm hab]
        rw [h1, h2]

theorem ParseCallbacks_preserves (cbs : CallbackMap) (t t' : PTree) (q : Path)
    (hdis : ∀ e ∈ cbs, pathsDiverge e.2 q = true)
    (h : ParseCallbacks cbs t = some t') : getPath q t' = getPath q t := by
  induction cbs generalizing t with
  | nil =>
    have hx : t = t' := by simpa [ParseCallbacks] using h
    subst hx
    rfl
  | cons e rest ih =>
    obtain ⟨sid, p⟩ := e
    simp only [ParseCallbacks] at h
    rcases hsp : setPath p t (.callbackProxy (parseUint64 sid)) with _ | t1
    · rw [hsp] at h
      simp at h
    · rw [hsp] at h
      have h1 := getPath_setPath_diverge p q t t1 _
        (hdis (sid, p) (List.mem_cons_self _ _)) hsp
      rw [ih t1 (fun e2 he2 => hdis e2 (List.mem_cons_of_mem _ he2)) h, h1]

theorem ParseCallbacks_spec (cbs : CallbackMap) (t : PTree)
    (hvalid : ∀ e ∈ cbs, (getPath e.2 t).isSome = true)
    (hdisj : List.Pairwise (fun a b => pathsDiverge a.2 b.2 = true) cbs) :
    ∃ t', ParseCallbacks cbs t = some t' ∧
      ∀ e ∈ cbs, getPath e.2 t' = some (.callbackProxy (parseUint64 e.1)) := by
  induction cbs generalizing t with
  | nil => exact ⟨t, rfl, by simp⟩
  | cons e rest ih =>
    obtain ⟨sid, p⟩ := e
    obtain ⟨t1, hset⟩ :=
      setPath_of_getPath p t (.callbackProxy (parseUint64 sid))
        (hvalid (sid, p) (List.mem_cons_self _ _))
    have hdiv_head : ∀ e' ∈ rest, pathsDiverge p e'.2 = true := by
      intro e' he'
      exact (List.pairwise_cons.mp hdisj).1 e' he'
    have hvalid1 : ∀ e' ∈ rest, (getPath e'.2 t1).isSome = true := by
      intro e' he'
      rw [getPath_setPath_diverge p e'.2 t t1 _ (hdiv_head e' he') hset]
      exact hvalid e' (List.mem_cons_of_mem _ he')
    obtain ⟨t', hparse, hall⟩ := ih t1 hvalid1 (List.pairwise_cons.mp hdisj).2
    refine ⟨t', ?_, ?_⟩
    · simp only [ParseCallbacks]
      rw [hset]
      exact hparse
    · intro e' he'
      rcases List.mem_cons.mp he' with heq | hmem
      · subst heq
        have hpres := ParseCallbacks_preserves rest t1 t' p
          (fun e2 he2 => by rw [pathsDiverge_comm]; exact hdiv_head e2 he2) hparse
        rw [hpres]
        exact getPath_setPath_self p t t1 _ hset
      · exact hall e' hmem

/-- C2: round-trip of callbacks.  For a message's callbacks map whose paths
resolve in the decoded argument tree and are pairwise divergent, parsing
replaces each callback position with an invocable proxy carrying the parsed
numeric ID (first conjunct); invoking such a proxy with a pure-JSON value
list V runs the `processMessage` sender, which marshals and sends exactly
one message — `sent` carries at most one — whose method is the numeric
callback ID and whose arguments are V (second conjunct). -/
theorem c2_parse_and_invoke_roundtrip (cbs : CallbackMap) (t : PTree)
    (hvalid : ∀ e ∈ cbs, (getPath e.2 t).isSome = true)
    (hdisj : List.Pairwise (fun a b => pathsDiverge a.2 b.2 = true) cbs)
    (s : Scrubber) (env : SendEnv) (V : VList) (hpure : pureJSONVList V = true)
    (hargs : env.argsMarshalOk = true) (hmsg : env.msgMarshalOk = true)
    (hconn : env.connected = true) (hwire : env.wireOk = true) :
    (∃ t', ParseCallbacks cbs t = some t' ∧
      ∀ e ∈ cbs, getPath e.2 t' = some (.callbackProxy (parseUint64 e.1))) ∧
    (∀ id, sender s env id V
      = .ok { callbacks := [], err := none, scrubber := s,
              sent := some { method := .num id, arguments := V, callbacks := [] } }) := by
  constructor
  · exact ParseCallbacks_spec cbs t hvalid hdisj
  · intro id
    have hscrub : Scrub s (.arr V) = .ok (s, []) := Scrub_pure s (.arr V) hpure
    simp only [sender, marshalAndSend]
    rw [hscrub]
    simp [hargs, hmsg, sendData, hconn, hwire]

/-- C2 witness: a concrete message with callback "5" at path
[0, "onMessage"] parses to a tree holding the proxy for ID 5, and invoking
that proxy with [42] sends exactly one message with method 5 and arguments
[42]. -/
theorem c2_parse_and_invoke_roundtrip_witness :
    (∃ t', ParseCallbacks [("5", [PathElem.idx 0, PathElem.str "onMessage"])]
        (.parr [.pobj [("onMessage", .null)]]) = some t' ∧
      ∀ e ∈ [(("5" : String), [PathElem.idx 0, PathElem.str "onMessage"])],
        getPath e.2 t' = some (.callbackProxy (parseUint64 e.1)))
    ∧ sender ⟨3, [(0, 4)]⟩ ⟨true, true, true, true⟩ 5 (.cons (.scalar 42) .nil)
      = .ok { callbacks := [], err := none, scrubber := ⟨3, [(0, 4)]⟩,
              sent := some { method := .num 5, arguments := .cons (.scalar 42) .nil,
                             callbacks := [] } } := by
  have h := c2_parse_and_invoke_roundtrip
    [("5", [PathElem.idx 0, PathElem.str "onMessage"])]
    (.parr [.pobj [("onMessage", .null)]])
    (by decide) (by decide) ⟨3, [(0, 4)]⟩ ⟨true, true, true, true⟩
    (.cons (.scalar 42) .nil) (by decide) rfl rfl rfl rfl
  exact ⟨h.1, h.2 5⟩

end KiteSpec
